import Mathlib

/-!
Verification development for the xero-automation payroll reconciliation
pipeline.  The Python sources are shallowly embedded: dates are represented
by their proleptic-Gregorian ordinal (as returned by Python
date.toordinal), float hour values by rationals, and raising code by
Except-valued functions.  Python list.sort and sorted are stable, so they
are modelled by a stable insertion sort with proven permutation and
sortedness lemmas.
-/

deriving instance DecidableEq for Except

namespace XeroAuto

/-- Python datetime.date, identified with its proleptic-Gregorian ordinal
(date.toordinal).  Comparison of dates and day-difference arithmetic in the
source coincide with integer comparison and subtraction of ordinals. -/
abbrev PyDate := Int

/-- Test whether a Python date has year 1900: the ordinals of 1900-01-01 and
1900-12-31 are 693596 and 693960 (1900 is not a leap year).  This models the
check entry_date.year == 1900 used for the travel-time placeholder date. -/
def dateYear1900 (d : PyDate) : Bool :=
  decide (693596 ≤ d) && decide (d ≤ 693960)

/-- Ordinal of the travel-time placeholder date(1900, 1, 1). -/
def placeholderDate : PyDate := 693596

/-- Python str.strip(): drop leading and trailing whitespace.  Defined on the
character list so that it evaluates by kernel reduction. -/
def pyStrip (s : String) : String :=
  ⟨((s.data.dropWhile Char.isWhitespace).reverse.dropWhile Char.isWhitespace).reverse⟩

/-- Python str.lower(), per-character (faithful on ASCII names). -/
def pyLower (s : String) : String :=
  ⟨s.data.map Char.toLower⟩

/-- Helper for pySplit: accumulate the current word (reversed) and split on
whitespace runs. -/
def pySplitAux : List Char → List Char → List String
  | [], acc => if acc.isEmpty then [] else [⟨acc.reverse⟩]
  | c :: cs, acc =>
    if c.isWhitespace then
      if acc.isEmpty then pySplitAux cs [] else (⟨acc.reverse⟩ : String) :: pySplitAux cs []
    else pySplitAux cs (c :: acc)

/-- Python str.split() with no argument: split on whitespace runs, dropping
empty fields. -/
def pySplit (s : String) : List String := pySplitAux s.data []

section StableSort

variable {α : Type} (le : α → α → Bool)

/-- Insert an element into a sorted list, placing it before the first element
it compares le-with; later-arriving equal elements stay behind, which is the
stability contract of Python sorted and list.sort. -/
def stableInsert (x : α) : List α → List α
  | [] => [x]
  | y :: ys => if le x y then x :: y :: ys else y :: stableInsert x ys

/-- Stable insertion sort: the model of Python sorted(xs, key=...) (stable
sorts of a list agree, so insertion sort is a faithful model of timsort). -/
def pySort : List α → List α
  | [] => []
  | x :: xs => stableInsert le x (pySort xs)

theorem stableInsert_perm (x : α) (l : List α) :
    List.Perm (stableInsert le x l) (x :: l) := by
  induction l with
  | nil => simp [stableInsert]
  | cons y ys ih =>
    simp only [stableInsert]
    split
    · exact List.Perm.refl _
    · exact (ih.cons y).trans (List.Perm.swap x y ys)

theorem pySort_perm (l : List α) : List.Perm (pySort le l) l := by
  induction l with
  | nil => simp [pySort]
  | cons x xs ih =>
    exact (stableInsert_perm le x (pySort le xs)).trans (ih.cons x)

theorem pairwise_stableInsert
    (htrans : ∀ a b c, le a b = true → le b c = true → le a c = true)
    (htot : ∀ a b, le a b = true ∨ le b a = true)
    (x : α) (l : List α) (hl : l.Pairwise (fun a b => le a b = true)) :
    (stableInsert le x l).Pairwise (fun a b => le a b = true) := by
  induction l with
  | nil => simp [stableInsert]
  | cons y ys ih =>
    rcases hl with - | ⟨hy, hys⟩
    simp only [stableInsert]
    split
    · refine List.Pairwise.cons ?_ (List.Pairwise.cons hy hys)
      intro b hb
      rcases List.mem_cons.mp hb with rfl | hb'
      · assumption
      · exact htrans x y b (by assumption) (hy b hb')
    · refine List.Pairwise.cons ?_ (ih hys)
      intro b hb
      have hb' := List.mem_cons.mp ((stableInsert_perm le x ys).mem_iff.mp hb)
      rcases hb' with rfl | hb'
      · rcases htot y b with h | h
        · exact h
        · exact absurd h (by simp_all)
      · exact hy b hb'

theorem pairwise_pySort
    (htrans : ∀ a b c, le a b = true → le b c = true → le a c = true)
    (htot : ∀ a b, le a b = true ∨ le b a = true)
    (l : List α) :
    (pySort le l).Pairwise (fun a b => le a b = true) := by
  induction l with
  | nil => simp [pySort]
  | cons x xs ih => exact pairwise_stableInsert le htrans htot x _ ih

end StableSort

section OrderedSets

variable {α : Type} [DecidableEq α]

/-- Add an element to an insertion-ordered set unless already present; the
model of Python set.add restricted to the membership facts the claims use. -/
def insertSet (l : List α) (x : α) : List α :=
  if x ∈ l then l else l ++ [x]

/-- Keep the first occurrence of each element, in first-seen order, skipping
elements already seen: the model of iterating a Python set or dict built by
repeated insertion. -/
def dedupFirstAux (seen : List α) : List α → List α
  | [] => []
  | x :: xs =>
    if x ∈ seen then dedupFirstAux seen xs else x :: dedupFirstAux (x :: seen) xs

/-- First-occurrence deduplication of a list. -/
def dedupFirst (l : List α) : List α := dedupFirstAux [] l

theorem mem_dedupFirstAux_iff (l : List α) :
    ∀ (seen : List α) (x : α), x ∈ dedupFirstAux seen l ↔ x ∈ l ∧ x ∉ seen := by
  induction l with
  | nil => simp [dedupFirstAux]
  | cons y ys ih =>
    intro seen x
    simp only [dedupFirstAux]
    split
    · rw [ih]
      constructor
      · rintro ⟨h1, h2⟩
        exact ⟨List.mem_cons_of_mem _ h1, h2⟩
      · rintro ⟨h1, h2⟩
        rcases List.mem_cons.mp h1 with rfl | h1
        · exact absurd (by assumption) h2
        · exact ⟨h1, h2⟩
    · constructor
      · intro hx
        rcases List.mem_cons.mp hx with rfl | hx
        · exact ⟨List.mem_cons_self _ _, by assumption⟩
        · have := (ih (y :: seen) x).mp hx
          refine ⟨List.mem_cons_of_mem _ this.1, fun hc => this.2 (List.mem_cons_of_mem _ hc)⟩
      · rintro ⟨h1, h2⟩
        rcases List.mem_cons.mp h1 with rfl | h1
        · exact List.mem_cons_self _ _
        · by_cases hxy : x = y
          · subst hxy; exact List.mem_cons_self _ _
          · exact List.mem_cons_of_mem _ ((ih (y :: seen) x).mpr
              ⟨h1, by simp [hxy, h2]⟩)

theorem mem_dedupFirst_iff (l : List α) (x : α) : x ∈ dedupFirst l ↔ x ∈ l := by
  simp [dedupFirst, mem_dedupFirstAux_iff]

theorem mem_insertSet_self (l : List α) (x : α) : x ∈ insertSet l x := by
  unfold insertSet
  split
  · assumption
  · simp

theorem mem_insertSet_of_mem (l : List α) (x y : α) (h : y ∈ l) :
    y ∈ insertSet l x := by
  unfold insertSet
  split
  · exact h
  · simp [h]

end OrderedSets

/-- Enumeration of supported hour types (models.HourType). -/
inductive HourType where
  | REGULAR
  | OVERTIME
  | TRAVEL
  | HOLIDAY
deriving DecidableEq, Repr

/-- Value of an HourType member, as in models.HourType.<member>.value. -/
def HourType.toStr : HourType → String
  | .REGULAR => "REGULAR"
  | .OVERTIME => "OVERTIME"
  | .TRAVEL => "TRAVEL"
  | .HOLIDAY => "HOLIDAY"

/-- Construction HourType(s) from a string; none models the ValueError the
Python enum constructor raises on an unrecognised value. -/
def HourType.ofString : String → Option HourType
  | "REGULAR" => some .REGULAR
  | "OVERTIME" => some .OVERTIME
  | "TRAVEL" => some .TRAVEL
  | "HOLIDAY" => some .HOLIDAY
  | _ => none

/-- models.DailyEntry: a single day of work for one employee.  Hours are
rationals standing for the Python floats. -/
structure DailyEntry where
  entry_date : PyDate
  region_name : String
  hours : ℚ
  hour_type : HourType
  overtime_rate : Option ℚ := none
  xero_tracking_id : Option String := none
  xero_earnings_rate_id : Option String := none
  original_region : Option String := none
  region_valid : Bool := true
deriving DecidableEq, Repr

/-- models.DailyEntry._validate, run by __post_init__: ok () means the
constructor returns normally, error msg means it raises ValueError(msg). -/
def DailyEntry.validate (e : DailyEntry) : Except String Unit :=
  if e.hours < 0 then .error "Hours cannot be negative"
  else if e.hours > 24 then .error "Hours cannot exceed 24 in a day"
  else if e.region_name = "" ∨ pyStrip e.region_name = "" then
    .error "Region name cannot be empty"
  else
    match e.overtime_rate with
    | some r => if r < 0 then .error "Overtime rate cannot be negative" else .ok ()
    | none => .ok ()

/-- Construction of a DailyEntry: the value when validation passes, the
ValueError message otherwise. -/
def mkDailyEntry (e : DailyEntry) : Except String DailyEntry :=
  match e.validate with
  | .ok _ => .ok e
  | .error m => .error m

/-- models.EmployeeTimesheet. -/
structure EmployeeTimesheet where
  employee_name : String
  daily_entries : List DailyEntry
  pay_period_end_date : PyDate
  xero_employee_id : Option String := none
  payroll_calendar_id : Option String := none
deriving DecidableEq, Repr

/-- models.EmployeeTimesheet._validate, run by __post_init__.  The
per-entry loop raises at the first entry dated after the pay-period end,
modelled with find?. -/
def EmployeeTimesheet.validate (t : EmployeeTimesheet) : Except String Unit :=
  if t.employee_name = "" ∨ pyStrip t.employee_name = "" then
    .error "Employee name cannot be empty"
  else if t.daily_entries.isEmpty then
    .error "Employee timesheet must have at least one daily entry"
  else
    match t.daily_entries.find? (fun e => decide (t.pay_period_end_date < e.entry_date)) with
    | some _ => .error "Daily entry date is after pay period end date"
    | none => .ok ()

/-- models.PayrollData. -/
structure PayrollData where
  employee_timesheets : List EmployeeTimesheet
  pay_period_end_date : PyDate
deriving DecidableEq, Repr

/-- models.PayrollData._validate, run by __post_init__. -/
def PayrollData.validate (p : PayrollData) : Except String Unit :=
  if p.employee_timesheets.isEmpty then
    .error "Payroll data must contain at least one employee timesheet"
  else
    match p.employee_timesheets.find?
        (fun t => decide (t.pay_period_end_date ≠ p.pay_period_end_date)) with
    | some _ => .error "Employee has mismatched pay period end date"
    | none => .ok ()

/-- Concrete entry with zero hours used to test the DailyEntry bounds. -/
def zeroHoursEntry : DailyEntry :=
  { entry_date := 739200, region_name := "North", hours := 0,
    hour_type := HourType.REGULAR }

/-- Concrete entry with 25 hours used to test the DailyEntry bounds. -/
def overHoursEntry : DailyEntry :=
  { entry_date := 739200, region_name := "North", hours := 25,
    hour_type := HourType.REGULAR }

/-- Concrete entry dated after the example pay-period end date 739200. -/
def lateEntry : DailyEntry :=
  { entry_date := 739205, region_name := "North", hours := 8,
    hour_type := HourType.REGULAR }

/-- Concrete timesheet whose single entry is dated after its pay-period end. -/
def lateTimesheet : EmployeeTimesheet :=
  { employee_name := "Jane Doe", daily_entries := [lateEntry],
    pay_period_end_date := 739200 }

/-- C2 counterexample: a DailyEntry with hours = 0 is accepted by
DailyEntry._validate even though 0 is outside the claimed range
0 < hours ≤ 24, so construction with hours outside that range does not
always raise. -/
theorem c2_zero_hours_accepted :
    DailyEntry.validate zeroHoursEntry = .ok () ∧ ¬ (0 < zeroHoursEntry.hours) := by
  constructor
  · decide
  · decide

/-- C2 (amended): DailyEntry construction succeeds only when
0 ≤ hours ≤ 24 and the region name is not empty or whitespace-only, and
construction with hours < 0, hours > 24, or an empty/whitespace region name
always raises (the source checks hours < 0, not hours ≤ 0). -/
theorem c2_daily_entry_bounds (e : DailyEntry) :
    (e.validate = .ok () →
      0 ≤ e.hours ∧ e.hours ≤ 24 ∧ pyStrip e.region_name ≠ "")
    ∧ ((e.hours < 0 ∨ 24 < e.hours ∨ pyStrip e.region_name = "") →
      ∃ m, e.validate = .error m) := by
  constructor
  · intro h
    unfold DailyEntry.validate at h
    split at h
    · exact absurd h (by simp)
    next h0 =>
      split at h
      · exact absurd h (by simp)
      next h24 =>
        split at h
        · exact absurd h (by simp)
        next hreg =>
          exact ⟨not_lt.mp h0, not_lt.mp (by simpa using h24),
            fun hc => hreg (Or.inr hc)⟩
  · intro h
    rcases h with h | h | h
    · exact ⟨"Hours cannot be negative", by simp [DailyEntry.validate, h]⟩
    · have h0 : ¬ (e.hours < 0) := not_lt.mpr (le_trans (by norm_num) (le_of_lt h))
      exact ⟨"Hours cannot exceed 24 in a day",
        by simp [DailyEntry.validate, h0, h]⟩
    · by_cases h0 : e.hours < 0
      · exact ⟨"Hours cannot be negative", by simp [DailyEntry.validate, h0]⟩
      · by_cases h24 : e.hours > 24
        · exact ⟨"Hours cannot exceed 24 in a day",
            by simp [DailyEntry.validate, h0, h24]⟩
        · exact ⟨"Region name cannot be empty",
            by simp [DailyEntry.validate, h0, h24, h]⟩

/-- C2 witness: the amended statement evaluated at a concrete entry with
hours = 25, which is rejected. -/
theorem c2_daily_entry_bounds_witness :
    ∃ m, DailyEntry.validate overHoursEntry = .error m :=
  (c2_daily_entry_bounds overHoursEntry).2 (Or.inr (Or.inl (by norm_num [overHoursEntry])))

/-- C7: EmployeeTimesheet construction raises whenever some entry is dated
after the pay-period end date or the entry list is empty, and every
successfully constructed timesheet has a non-empty entry list all of whose
entry dates are at most the pay-period end date. -/
theorem c7_timesheet_invariant (t : EmployeeTimesheet) :
    ((∃ e ∈ t.daily_entries, t.pay_period_end_date < e.entry_date) →
      ∃ m, t.validate = .error m)
    ∧ (t.daily_entries = [] → ∃ m, t.validate = .error m)
    ∧ (t.validate = .ok () →
      t.daily_entries ≠ [] ∧
        ∀ e ∈ t.daily_entries, e.entry_date ≤ t.pay_period_end_date) := by
  refine ⟨?_, ?_, ?_⟩
  · rintro ⟨e, he, hlt⟩
    unfold EmployeeTimesheet.validate
    split
    · exact ⟨_, rfl⟩
    · split
      · exact ⟨_, rfl⟩
      · have hs : (t.daily_entries.find?
            (fun e => decide (t.pay_period_end_date < e.entry_date))).isSome := by
          rw [List.find?_isSome]
          exact ⟨e, he, by simpa using hlt⟩
        rcases Option.isSome_iff_exists.mp hs with ⟨v, hf⟩
        rw [hf]
        exact ⟨_, rfl⟩
  · intro h
    unfold EmployeeTimesheet.validate
    split
    · exact ⟨_, rfl⟩
    · rw [if_pos (by simp [h])]
      exact ⟨_, rfl⟩
  · intro h
    unfold EmployeeTimesheet.validate at h
    split at h
    · exact absurd h (by simp)
    · split at h
      · exact absurd h (by simp)
      · rename_i hne
        refine ⟨by simpa [List.isEmpty_iff] using hne, ?_⟩
        intro e he
        match hf : t.daily_entries.find?
            (fun e => decide (t.pay_period_end_date < e.entry_date)) with
        | some v =>
          rw [hf] at h
          exact absurd h (by simp)
        | none =>
          have := List.find?_eq_none.mp hf e he
          simpa using this

/-- Raw parsed entry dict as produced by the spreadsheet readers and
consumed by api_server.cap_regular_hours_in_parsed_data and
DataConsolidator.consolidate: hour_type is still the raw string. -/
structure RawEntry where
  entry_date : PyDate
  region_name : String
  hours : ℚ
  hour_type : String
deriving DecidableEq, Repr

/-- One employee record of the raw parsed data. -/
structure RawEmployee where
  employee_name : String
  entries : List RawEntry
deriving DecidableEq, Repr

/-- Raw parsed site-timesheet data. -/
structure SiteData where
  file_type : String
  pay_period_end_date : Option PyDate
  employees : List RawEmployee
deriving DecidableEq, Repr

/-- Test entry.get("hour_type") == "REGULAR". -/
def RawEntry.isRegular (e : RawEntry) : Bool := e.hour_type == "REGULAR"

/-- Test entry.get("hour_type") == "OVERTIME". -/
def RawEntry.isOvertime (e : RawEntry) : Bool := e.hour_type == "OVERTIME"

/-- Comparison used to sort indexed regular entries by date, latest first
(sorted(..., key=entry_date, reverse=True); stability on equal dates is
preserved by pySort exactly as by Python sorted). -/
def dateDescLe (a b : Nat × RawEntry) : Bool :=
  decide (b.2.entry_date ≤ a.2.entry_date)

/-- The greedy reduction walk of cap_regular_hours_in_parsed_data: over the
regular entries sorted latest-first (paired with their index in the original
entry list), assign to each entry the amount to remove, stopping once the
remaining excess is exhausted.  Mirrors the for-loop building the
reductions dict. -/
def buildReductions : List (Nat × RawEntry) → ℚ → List (Nat × ℚ)
  | [], _ => []
  | (i, e) :: rest, remaining =>
    if remaining ≤ 0 then []
    else if e.hours ≥ remaining then [(i, remaining)]
    else (i, e.hours) :: buildReductions rest (remaining - e.hours)

/-- Reduction applied to the entry at index i (0 when the reductions dict has
no key i). -/
def reductionAt (rs : List (Nat × ℚ)) (i : Nat) : ℚ :=
  match rs.find? (fun p => p.1 == i) with
  | some p => p.2
  | none => 0

/-- Reductions computed by cap_regular_hours_in_parsed_data for one employee
whose regular hours exceed 40. -/
def capReductions (emp : RawEmployee) : List (Nat × ℚ) :=
  buildReductions
    (pySort dateDescLe (emp.entries.enum.filter (fun p => p.2.isRegular)))
    (((emp.entries.filter RawEntry.isRegular).map RawEntry.hours).sum - 40)

/-- Per-employee body of api_server.cap_regular_hours_in_parsed_data: skip
employees without overtime entries or with at most 40 regular hours;
otherwise apply the greedy reductions and drop entries left with zero (or
negative) hours. -/
def capEmployee (emp : RawEmployee) : RawEmployee :=
  if (emp.entries.filter RawEntry.isOvertime).isEmpty then emp
  else if ((emp.entries.filter RawEntry.isRegular).map RawEntry.hours).sum ≤ 40 then emp
  else
    let reds := capReductions emp
    { emp with
      entries :=
        (emp.entries.enum.map
          (fun p => { p.2 with hours := p.2.hours - reductionAt reds p.1 })).filter
          (fun e => decide (0 < e.hours)) }

/-- api_server.cap_regular_hours_in_parsed_data: cap every employee of the
parsed site data. -/
def cap_regular_hours_in_parsed_data (sd : SiteData) : SiteData :=
  { sd with employees := sd.employees.map capEmployee }

theorem sum_map_zero {α : Type} (l : List α) : (l.map (fun _ => (0 : ℚ))).sum = 0 := by
  induction l <;> simp [*]

theorem sum_map_sub {α : Type} (l : List α) (f g : α → ℚ) :
    (l.map (fun a => f a - g a)).sum = (l.map f).sum - (l.map g).sum := by
  induction l with
  | nil => simp
  | cons a l ih => simp [ih]; ring

theorem sum_filter_pos {α : Type} (f : α → ℚ) :
    ∀ l : List α, (∀ a ∈ l, 0 ≤ f a) →
      ((l.filter (fun a => decide (0 < f a))).map f).sum = (l.map f).sum := by
  intro l
  induction l with
  | nil => simp
  | cons a l ih =>
    intro h
    have hrest := ih (fun b hb => h b (List.mem_cons_of_mem _ hb))
    by_cases ha : 0 < f a
    · rw [List.filter_cons, if_pos (by simpa using ha)]
      simp only [List.map_cons, List.sum_cons]
      rw [hrest]
    · have h0 : f a = 0 := le_antisymm (not_lt.mp ha) (h a (List.mem_cons_self _ _))
      rw [List.filter_cons, if_neg (by simpa using ha)]
      simp only [List.map_cons, List.sum_cons, h0, zero_add]
      exact hrest

theorem reductionAt_nil (i : Nat) : reductionAt [] i = 0 := rfl

theorem reductionAt_cons_self (i : Nat) (v : ℚ) (rs : List (Nat × ℚ)) :
    reductionAt ((i, v) :: rs) i = v := by
  unfold reductionAt
  rw [List.find?_cons_of_pos _ (by simp)]

theorem reductionAt_cons_ne (k : Nat) (v : ℚ) (rs : List (Nat × ℚ)) (i : Nat)
    (h : k ≠ i) : reductionAt ((k, v) :: rs) i = reductionAt rs i := by
  unfold reductionAt
  rw [List.find?_cons_of_neg _ (by simpa using h)]

theorem buildReductions_sum :
    ∀ (l : List (Nat × RawEntry)) (x : ℚ), 0 < x →
      x ≤ (l.map (fun p => p.2.hours)).sum →
      ((buildReductions l x).map Prod.snd).sum = x := by
  intro l
  induction l with
  | nil =>
    intro x hx hle
    simp only [List.map_nil, List.sum_nil] at hle
    linarith
  | cons p rest ih =>
    rcases p with ⟨i, e⟩
    intro x hx hle
    simp only [List.map_cons, List.sum_cons] at hle
    simp only [buildReductions]
    rw [if_neg (not_le.mpr hx)]
    by_cases habs : e.hours ≥ x
    · rw [if_pos habs]
      simp
    · rw [if_neg habs]
      have he : e.hours < x := not_le.mp habs
      simp only [List.map_cons, List.sum_cons]
      rw [ih (x - e.hours) (by linarith) (by linarith)]
      ring

theorem buildReductions_fst_mem :
    ∀ (l : List (Nat × RawEntry)) (x : ℚ), ∀ q ∈ buildReductions l x,
      q.1 ∈ l.map Prod.fst := by
  intro l
  induction l with
  | nil => intro x q hq; simp [buildReductions] at hq
  | cons p rest ih =>
    rcases p with ⟨i, e⟩
    intro x q hq
    simp only [buildReductions] at hq
    split at hq
    · simp at hq
    · split at hq
      · rw [List.mem_singleton] at hq
        subst hq
        simp
      · rcases List.mem_cons.mp hq with rfl | hq'
        · simp
        · exact List.mem_cons_of_mem _ (ih _ q hq')

theorem reductionAt_eq_zero_of_not_mem (rs : List (Nat × ℚ)) (i : Nat)
    (h : i ∉ rs.map Prod.fst) : reductionAt rs i = 0 := by
  have hf : rs.find? (fun p => p.1 == i) = none := by
    rw [List.find?_eq_none]
    intro q hq
    simp only [beq_iff_eq]
    intro hqi
    exact h (hqi ▸ List.mem_map_of_mem Prod.fst hq)
  unfold reductionAt
  rw [hf]

theorem sum_reductionAt_self :
    ∀ (l : List (Nat × RawEntry)) (x : ℚ), (l.map Prod.fst).Nodup →
      (l.map (fun p => reductionAt (buildReductions l x) p.1)).sum =
        ((buildReductions l x).map Prod.snd).sum := by
  intro l
  induction l with
  | nil => intro x _; simp [buildReductions]
  | cons p rest ih =>
    rcases p with ⟨i, e⟩
    intro x hnd
    rw [List.map_cons] at hnd
    obtain ⟨hknotin, hndr⟩ := List.nodup_cons.mp hnd
    have hne : ∀ q ∈ rest, q.1 ≠ i := by
      intro q hq hqi
      exact hknotin (List.mem_map.mpr ⟨q, hq, hqi⟩)
    simp only [buildReductions]
    split
    · simp only [List.map_nil, List.sum_nil]
      apply List.sum_eq_zero
      intro y hy
      rcases List.mem_map.mp hy with ⟨q, hq, rfl⟩
      exact reductionAt_nil q.1
    · split
      · simp only [List.map_cons, List.sum_cons, List.map_nil, List.sum_nil]
        rw [reductionAt_cons_self]
        have hz : (rest.map (fun p => reductionAt [(i, x)] p.1)).sum = 0 := by
          apply List.sum_eq_zero
          intro y hy
          rcases List.mem_map.mp hy with ⟨q, hq, rfl⟩
          rw [reductionAt_cons_ne _ _ _ _ (fun h => hne q hq h.symm), reductionAt_nil]
        rw [hz]
      · simp only [List.map_cons, List.sum_cons]
        rw [reductionAt_cons_self]
        have hcong : rest.map
              (fun p => reductionAt ((i, e.hours) :: buildReductions rest (x - e.hours)) p.1)
            = rest.map (fun p => reductionAt (buildReductions rest (x - e.hours)) p.1) := by
          apply List.map_congr_left
          intro q hq
          rw [reductionAt_cons_ne _ _ _ _ (fun h => hne q hq h.symm)]
        rw [hcong, ih (x - e.hours) hndr]

theorem buildReductions_bounds :
    ∀ (l : List (Nat × RawEntry)) (x : ℚ), 0 < x →
      (∀ p ∈ l, 0 ≤ p.2.hours) →
      ∀ q ∈ buildReductions l x,
        0 ≤ q.2 ∧ ∃ e, (q.1, e) ∈ l ∧ q.2 ≤ e.hours := by
  intro l
  induction l with
  | nil => intro x _ _ q hq; simp [buildReductions] at hq
  | cons p rest ih =>
    rcases p with ⟨i, e⟩
    intro x hx hpos q hq
    simp only [buildReductions] at hq
    rw [if_neg (not_le.mpr hx)] at hq
    split at hq
    · rw [List.mem_singleton] at hq
      subst hq
      exact ⟨le_of_lt hx, e, List.mem_cons_self _ _, by assumption⟩
    · rcases List.mem_cons.mp hq with rfl | hq'
      · exact ⟨hpos (i, e) (List.mem_cons_self _ _), e, List.mem_cons_self _ _, le_refl _⟩
      · have he : e.hours < x := not_le.mp (by assumption)
        obtain ⟨h0, e', hm, hle⟩ :=
          ih (x - e.hours) (by linarith) (fun p hp => hpos p (List.mem_cons_of_mem _ hp)) q hq'
        exact ⟨h0, e', List.mem_cons_of_mem _ hm, hle⟩

theorem buildReductions_order :
    ∀ (l : List (Nat × RawEntry)) (x : ℚ),
      (l.map Prod.fst).Nodup →
      l.Pairwise (fun a b => dateDescLe a b = true) →
      ∀ i ei j ej, (i, ei) ∈ l → (j, ej) ∈ l → ei.entry_date < ej.entry_date →
        reductionAt (buildReductions l x) i ≠ 0 →
        reductionAt (buildReductions l x) j = ej.hours := by
  intro l
  induction l with
  | nil => intro x _ _ i ei j ej hi; simp at hi
  | cons p rest ih =>
    rcases p with ⟨k, ek⟩
    intro x hnd hpw i ei j ej hi hj hdate hred
    rw [List.map_cons] at hnd
    obtain ⟨hknotin, hndr⟩ := List.nodup_cons.mp hnd
    rcases hpw with - | ⟨hk, hpwr⟩
    simp only [buildReductions] at hred ⊢
    by_cases hx0 : x ≤ 0
    · rw [if_pos hx0] at hred
      exact absurd (reductionAt_nil i) hred
    rw [if_neg hx0] at hred ⊢
    by_cases habs : ek.hours ≥ x
    · rw [if_pos habs] at hred ⊢
      have hik : k = i := by
        by_contra hne
        rw [reductionAt_cons_ne _ _ _ _ hne, reductionAt_nil] at hred
        exact hred rfl
      exfalso
      subst hik
      have hei : ei = ek := by
        rcases List.mem_cons.mp hi with h | h
        · injection h with _ h2
        · exact absurd (List.mem_map_of_mem Prod.fst h) hknotin
      rcases List.mem_cons.mp hj with h | h
      · have hej : ej = ek := by injection h with _ h2
        rw [hei, hej] at hdate
        exact lt_irrefl _ hdate
      · have := hk (j, ej) h
        simp only [dateDescLe, decide_eq_true_eq] at this
        rw [hei] at hdate
        exact absurd hdate (not_lt.mpr this)
    · rw [if_neg habs] at hred ⊢
      rcases List.mem_cons.mp hj with hjh | hjr
      · have hjk : j = k := by injection hjh with h1 _
        have hejk : ej = ek := by injection hjh with _ h2
        subst hjk
        rw [reductionAt_cons_self, hejk]
      · have hjk : j ≠ k := by
          intro h
          exact hknotin (List.mem_map.mpr ⟨(j, ej), hjr, h⟩)
        rcases List.mem_cons.mp hi with hih | hir
        · exfalso
          have heik : ei = ek := by injection hih with _ h2
          have := hk (j, ej) hjr
          simp only [dateDescLe, decide_eq_true_eq] at this
          rw [heik] at hdate
          exact absurd hdate (not_lt.mpr this)
        · have hik : i ≠ k := by
            intro h
            exact hknotin (List.mem_map.mpr ⟨(i, ei), hir, h⟩)
          rw [reductionAt_cons_ne _ _ _ _ (fun h => hik h.symm)] at hred
          rw [reductionAt_cons_ne _ _ _ _ (fun h => hjk h.symm)]
          exact ih (x - ek.hours) hndr hpwr i ei j ej hir hjr hdate hred

theorem snd_mem_of_mem_enum {α : Type} {l : List α} {p : Nat × α}
    (h : p ∈ l.enum) : p.2 ∈ l := by
  have := List.mem_enum_iff_getElem?.mp h
  exact List.getElem?_mem this

theorem enum_snd_unique {α : Type} {l : List α} {i : Nat} {a b : α}
    (ha : (i, a) ∈ l.enum) (hb : (i, b) ∈ l.enum) : a = b := by
  have h1 := List.mem_enum_iff_getElem?.mp ha
  have h2 := List.mem_enum_iff_getElem?.mp hb
  rw [h1] at h2
  exact Option.some.inj h2

theorem dateDescLe_trans (a b c : Nat × RawEntry)
    (h1 : dateDescLe a b = true) (h2 : dateDescLe b c = true) :
    dateDescLe a c = true := by
  simp only [dateDescLe, decide_eq_true_eq] at h1 h2 ⊢
  exact le_trans h2 h1

theorem dateDescLe_total (a b : Nat × RawEntry) :
    dateDescLe a b = true ∨ dateDescLe b a = true := by
  simp only [dateDescLe, decide_eq_true_eq]
  exact le_total _ _

/-- C1: for every employee record of parsed site data (all parsed hour
values are non-negative), cap_regular_hours_in_parsed_data leaves employees
without OVERTIME entries completely unchanged; for an employee with at least
one OVERTIME entry whose REGULAR hours sum to more than 40, afterwards the
REGULAR hours sum to exactly 40, every surviving entry has positive hours
(entries reduced to zero are removed), and the reductions are taken from the
latest dates first: whenever an entry is reduced at all, every strictly
later-dated REGULAR entry has been reduced by its full hour value. -/
theorem c1_cap_regular_hours (sd : SiteData) (emp : RawEmployee)
    (hmem : emp ∈ sd.employees) :
    capEmployee emp ∈ (cap_regular_hours_in_parsed_data sd).employees
    ∧ (emp.entries.filter RawEntry.isOvertime = [] → capEmployee emp = emp)
    ∧ (emp.entries.filter RawEntry.isOvertime ≠ [] →
        (∀ e ∈ emp.entries, 0 ≤ e.hours) →
        40 < ((emp.entries.filter RawEntry.isRegular).map RawEntry.hours).sum →
        (((capEmployee emp).entries.filter RawEntry.isRegular).map RawEntry.hours).sum = 40
        ∧ (∀ e ∈ (capEmployee emp).entries, 0 < e.hours)
        ∧ (∀ i j ei ej, (i, ei) ∈ emp.entries.enum → (j, ej) ∈ emp.entries.enum →
            ei.isRegular = true → ej.isRegular = true →
            ei.entry_date < ej.entry_date →
            reductionAt (capReductions emp) i ≠ 0 →
            reductionAt (capReductions emp) j = ej.hours)) := by
  refine ⟨List.mem_map_of_mem capEmployee hmem, ?_, ?_⟩
  · intro h
    unfold capEmployee
    rw [if_pos (by simp [h])]
  · intro hOT hpos hgt
    have hOTne : ¬ (emp.entries.filter RawEntry.isOvertime).isEmpty = true := by
      simpa [List.isEmpty_iff] using hOT
    have hcap : (capEmployee emp).entries =
        ((emp.entries.enum.map
          (fun p => { p.2 with hours := p.2.hours - reductionAt (capReductions emp) p.1 })).filter
          (fun e => decide (0 < e.hours))) := by
      unfold capEmployee
      rw [if_neg hOTne, if_neg (not_le.mpr hgt)]
    set total := ((emp.entries.filter RawEntry.isRegular).map RawEntry.hours).sum with htotal
    set regIndexed := emp.entries.enum.filter (fun p => p.2.isRegular) with hregIndexed
    set sortedReg := pySort dateDescLe regIndexed with hsortedReg
    have hreds : capReductions emp = buildReductions sortedReg (total - 40) := rfl
    set reds := buildReductions sortedReg (total - 40) with hredsdef
    -- the sorted regular list is a permutation of the indexed regular list
    have hperm : List.Perm sortedReg regIndexed := pySort_perm dateDescLe regIndexed
    -- distinct indices
    have hnodupEnum : (emp.entries.enum.map Prod.fst).Nodup := by
      rw [List.enum_map_fst]
      exact List.nodup_range _
    have hnodupReg : (regIndexed.map Prod.fst).Nodup :=
      ((List.filter_sublist emp.entries.enum).map Prod.fst).nodup hnodupEnum
    have hnodup : (sortedReg.map Prod.fst).Nodup :=
      (List.Perm.nodup_iff (hperm.map Prod.fst)).mpr hnodupReg
    -- snd of the indexed regular list is the filtered entry list
    have hsnd : regIndexed.map Prod.snd = emp.entries.filter RawEntry.isRegular := by
      rw [hregIndexed]
      have : (fun p : Nat × RawEntry => p.2.isRegular) =
          (RawEntry.isRegular ∘ Prod.snd) := rfl
      rw [this, ← List.filter_map, List.enum_map_snd]
    -- total regular hours as a sum over the indexed regular list
    have hsumReg : (regIndexed.map (fun p => p.2.hours)).sum = total := by
      have : regIndexed.map (fun p => p.2.hours) =
          (regIndexed.map Prod.snd).map RawEntry.hours := by
        rw [List.map_map]
        rfl
      rw [this, hsnd]
    have hsumSorted : (sortedReg.map (fun p => p.2.hours)).sum = total := by
      rw [(hperm.map (fun p => p.2.hours)).sum_eq, hsumReg]
    -- total reduction equals the excess
    have hexcess : ((reds.map Prod.snd).sum) = total - 40 :=
      buildReductions_sum sortedReg (total - 40) (by linarith) (by rw [hsumSorted]; linarith)
    -- membership transfers
    have hmemEnum : ∀ q ∈ sortedReg, q ∈ emp.entries.enum := by
      intro q hq
      exact (List.mem_filter.mp (hperm.mem_iff.mp hq)).1
    -- every reduction is bounded by the affected entry hours
    have hbound : ∀ p ∈ emp.entries.enum,
        0 ≤ reductionAt reds p.1 ∧ reductionAt reds p.1 ≤ p.2.hours := by
      intro p hp
      match hf : reds.find? (fun q => q.1 == p.1) with
      | none =>
        have : reductionAt reds p.1 = 0 := by
          unfold reductionAt
          rw [hf]
        rw [this]
        exact ⟨le_refl 0, hpos p.2 (snd_mem_of_mem_enum hp)⟩
      | some q =>
        have hval : reductionAt reds p.1 = q.2 := by
          unfold reductionAt
          rw [hf]
        have hq1 : q.1 = p.1 := by simpa using List.find?_some hf
        obtain ⟨h0, e', hm', hle⟩ := buildReductions_bounds sortedReg (total - 40)
          (by linarith)
          (fun r hr => hpos r.2 (snd_mem_of_mem_enum (hmemEnum r hr)))
          q (List.mem_of_find?_eq_some hf)
        have hmEnum' : (q.1, e') ∈ emp.entries.enum := hmemEnum (q.1, e') hm'
        have he' : e' = p.2 := by
          rcases p with ⟨i, e⟩
          rw [hq1] at hmEnum'
          exact enum_snd_unique hmEnum' hp
        rw [hval]
        exact ⟨h0, he' ▸ hle⟩
    -- the updated list and its positivity
    set upd : Nat × RawEntry → RawEntry :=
      (fun p => { p.2 with hours := p.2.hours - reductionAt reds p.1 }) with hupd
    have happlied : (capEmployee emp).entries =
        (emp.entries.enum.map upd).filter (fun e => decide (0 < e.hours)) := hcap
    have happos : ∀ e ∈ emp.entries.enum.map upd, RawEntry.isRegular e = true → 0 ≤ e.hours := by
      intro e he _
      rcases List.mem_map.mp he with ⟨p, hp, rfl⟩
      have := hbound p hp
      simp only [hupd]
      linarith [this.2]
    refine ⟨?_, ?_, ?_⟩
    · -- the capped regular hours sum to 40
      rw [happlied]
      have hswap : ((emp.entries.enum.map upd).filter (fun e => decide (0 < e.hours))).filter
            RawEntry.isRegular =
          ((emp.entries.enum.map upd).filter RawEntry.isRegular).filter
            (fun e => decide (0 < e.hours)) := by
        rw [List.filter_filter, List.filter_filter]
        apply List.filter_congr
        intro a _
        rw [Bool.and_comm]
      rw [hswap]
      rw [sum_filter_pos RawEntry.hours _
        (fun a ha => happos a (List.mem_filter.mp ha).1 (List.mem_filter.mp ha).2)]
      have hfilter : (emp.entries.enum.map upd).filter RawEntry.isRegular =
          regIndexed.map upd := by
        rw [List.filter_map]
        have hcong : (RawEntry.isRegular ∘ upd) =
            (fun p : Nat × RawEntry => p.2.isRegular) := rfl
        rw [hcong]
      rw [hfilter, List.map_map]
      have hfun : (RawEntry.hours ∘ upd) =
          (fun p : Nat × RawEntry => p.2.hours - reductionAt reds p.1) := rfl
      rw [hfun, sum_map_sub]
      have hsumred : (regIndexed.map (fun p => reductionAt reds p.1)).sum =
          (reds.map Prod.snd).sum := by
        rw [← (hperm.map (fun p => reductionAt reds p.1)).sum_eq]
        exact sum_reductionAt_self sortedReg (total - 40) hnodup
      rw [hsumReg, hsumred, hexcess]
      ring
    · -- all surviving entries have positive hours
      intro e he
      rw [happlied] at he
      have := (List.mem_filter.mp he).2
      simpa using this
    · -- latest-dates-first: an earlier reduced entry forces full reduction later
      intro i j ei ej hi hj hregi hregj hdate hrni
      rw [hreds] at hrni ⊢
      have hiS : (i, ei) ∈ sortedReg :=
        hperm.mem_iff.mpr (List.mem_filter.mpr ⟨hi, hregi⟩)
      have hjS : (j, ej) ∈ sortedReg :=
        hperm.mem_iff.mpr (List.mem_filter.mpr ⟨hj, hregj⟩)
      exact buildReductions_order sortedReg (total - 40) hnodup
        (pairwise_pySort dateDescLe dateDescLe_trans dateDescLe_total regIndexed)
        i ei j ej hiS hjS hdate hrni

/-- Concrete employee record with 45 REGULAR hours across 5 days and one
OVERTIME entry, as in the hour-capping example of the spec. -/
def exCapEmployee : RawEmployee :=
  { employee_name := "John Smith",
    entries :=
      [ { entry_date := 739101, region_name := "North", hours := 9, hour_type := "REGULAR" },
        { entry_date := 739102, region_name := "North", hours := 9, hour_type := "REGULAR" },
        { entry_date := 739103, region_name := "North", hours := 9, hour_type := "REGULAR" },
        { entry_date := 739104, region_name := "North", hours := 9, hour_type := "REGULAR" },
        { entry_date := 739105, region_name := "North", hours := 9, hour_type := "REGULAR" },
        { entry_date := 739105, region_name := "North", hours := 2, hour_type := "OVERTIME" } ] }

/-- Concrete parsed site data holding the capping example employee. -/
def exCapSite : SiteData :=
  { file_type := "site_timesheet", pay_period_end_date := some 739105,
    employees := [exCapEmployee] }

/-- C1 witness: the capping theorem applied to the concrete 45-hour employee
with overtime, whose capped regular hours sum to exactly 40 and whose
surviving entries all have positive hours. -/
theorem c1_cap_regular_hours_witness :
    (((capEmployee exCapEmployee).entries.filter RawEntry.isRegular).map
        RawEntry.hours).sum = 40
    ∧ ∀ e ∈ (capEmployee exCapEmployee).entries, 0 < e.hours := by
  have h := (c1_cap_regular_hours exCapSite exCapEmployee (by decide)).2.2
    (by decide) (by decide) (by simp [exCapEmployee, RawEntry.isRegular]; norm_num)
  exact ⟨h.1, h.2.1⟩

/-- C7 witness: the theorem applied to a concrete timesheet whose single
entry is dated after the pay-period end, which is rejected. -/
theorem c7_timesheet_invariant_witness :
    ∃ m, EmployeeTimesheet.validate lateTimesheet = .error m :=
  (c7_timesheet_invariant lateTimesheet).1
    ⟨lateEntry, by simp [lateTimesheet], by norm_num [lateTimesheet, lateEntry]⟩

/-- Raw parsed travel-time data. -/
structure TravelData where
  file_type : String
  employees : List RawEmployee
deriving DecidableEq, Repr

/-- One row of the overtime-rates lookup built by the overtime reader. -/
structure OvertimeInfo where
  has_different_overtime_rate : Bool
  overtime_rate : Option ℚ
deriving DecidableEq, Repr

/-- Raw parsed overtime-rates data. -/
structure OvertimeData where
  file_type : String
  overtime_rates_lookup : List (String × OvertimeInfo)
deriving DecidableEq, Repr

/-- DataConsolidator._lookup_overtime_rate: exact dict lookup first; when the
exact entry is absent or not flagged, scan all entries case-insensitively and
return the rate of the first flagged entry whose lowered name matches. -/
def lookupOvertimeRate (employee_name : String) (od : OvertimeData) : Option ℚ :=
  let lookup := od.overtime_rates_lookup
  let ciScan : Option ℚ :=
    match lookup.find? (fun p =>
        pyLower p.1 == pyLower employee_name && p.2.has_different_overtime_rate) with
    | some p => p.2.overtime_rate
    | none => none
  match lookup.find? (fun p => p.1 == employee_name) with
  | some p => if p.2.has_different_overtime_rate then p.2.overtime_rate else ciScan
  | none => ciScan

/-- DataConsolidator._create_daily_entry_from_site_data.  The error cases are
the ValueError of the HourType constructor and of DailyEntry validation. -/
def createDailyEntryFromSiteData (entry : RawEntry) (od : OvertimeData)
    (employee_name : String) (valid_regions : Option (List String)) :
    Except String DailyEntry :=
  match HourType.ofString entry.hour_type with
  | none => .error "invalid hour type"
  | some ht =>
    let overtime_rate :=
      if ht = HourType.OVERTIME then lookupOvertimeRate employee_name od else none
    let quarantined : Bool :=
      match valid_regions with
      | some vr => decide (entry.region_name ∉ vr)
      | none => false
    mkDailyEntry
      { entry_date := entry.entry_date,
        region_name := if quarantined then "Unknown" else entry.region_name,
        hours := entry.hours, hour_type := ht, overtime_rate := overtime_rate,
        original_region := some entry.region_name, region_valid := !quarantined }

/-- DataConsolidator._create_daily_entry_from_travel_data: travel entries are
always TRAVEL, placeholder year-1900 dates are resolved to the pay-period end
date, and unknown regions are quarantined the same way as site entries. -/
def createDailyEntryFromTravelData (entry : RawEntry) (pp : PyDate)
    (valid_regions : Option (List String)) : Except String DailyEntry :=
  let quarantined : Bool :=
    match valid_regions with
    | some vr => decide (entry.region_name ∉ vr)
    | none => false
  mkDailyEntry
    { entry_date := if dateYear1900 entry.entry_date then pp else entry.entry_date,
      region_name := if quarantined then "Unknown" else entry.region_name,
      hours := entry.hours, hour_type := HourType.TRAVEL, overtime_rate := none,
      original_region := some entry.region_name, region_valid := !quarantined }

/-- One element of the consolidator unknown_region_entries list: the tuple
(canonical name, original region, entry date, hours). -/
structure UnknownRecord where
  employee_name : String
  original_region : Option String
  entry_date : PyDate
  hours : ℚ
deriving DecidableEq, Repr

/-- Mutable state threaded through DataConsolidator.consolidate: the
insertion-ordered consolidated_employees dict (name to daily-entry list), the
unknown_regions set and the unknown_region_entries list. -/
structure ConsState where
  employees : List (String × List DailyEntry)
  unknown_regions : List String
  unknown_region_entries : List UnknownRecord
deriving DecidableEq, Repr

/-- Create the dict slot for an employee if absent (the
`if canonical_name not in consolidated_employees` branch). -/
def ConsState.ensureEmployee (st : ConsState) (name : String) : ConsState :=
  if st.employees.any (fun p => p.1 == name) then st
  else { st with employees := st.employees ++ [(name, [])] }

/-- Append a DailyEntry to the daily-entry list of an employee in the
consolidated_employees dict. -/
def updateEmployees (emps : List (String × List DailyEntry)) (name : String)
    (de : DailyEntry) : List (String × List DailyEntry) :=
  if emps.any (fun p => p.1 == name) then
    emps.map (fun p => if p.1 == name then (p.1, p.2 ++ [de]) else p)
  else emps ++ [(name, [de])]

/-- Append a freshly created DailyEntry for an employee, recording
unknown_regions.add(original_region or two-quote empty) and the appended
unknown tuple exactly when the entry was quarantined. -/
def ConsState.addEntry (st : ConsState) (name : String) (de : DailyEntry) : ConsState :=
  { employees := updateEmployees st.employees name de,
    unknown_regions :=
      if de.region_valid then st.unknown_regions
      else insertSet st.unknown_regions (de.original_region.getD ""),
    unknown_region_entries :=
      if de.region_valid then st.unknown_region_entries
      else st.unknown_region_entries ++
        [{ employee_name := name, original_region := de.original_region,
           entry_date := de.entry_date, hours := de.hours }] }

/-- Inner entry loop of consolidate for one employee: create each entry and
fold it into the state, propagating the first raised error. -/
def processEntries (creator : RawEntry → Except String DailyEntry) (name : String) :
    List RawEntry → ConsState → Except String ConsState
  | [], st => .ok st
  | e :: rest, st =>
    match creator e with
    | .error m => .error m
    | .ok de => processEntries creator name rest (st.addEntry name de)

/-- Outer employee loop of consolidate over one source.  The canonical name
mapping built by _build_employee_name_mapping is the identity (exact string
matching), so the canonical name is the employee name itself. -/
def processEmployees (creator : String → RawEntry → Except String DailyEntry) :
    List RawEmployee → ConsState → Except String ConsState
  | [], st => .ok st
  | emp :: rest, st =>
    match processEntries (creator emp.employee_name) emp.employee_name emp.entries
        (st.ensureEmployee emp.employee_name) with
    | .error m => .error m
    | .ok st2 => processEmployees creator rest st2

/-- DataConsolidator._validate_input_data restricted to the checks expressible
in the typed model (key-presence checks on dicts hold by construction). -/
def validateInputData (site : SiteData) (travel : TravelData) (od : OvertimeData) :
    Except String Unit :=
  if site.file_type ≠ "site_timesheet" then
    .error "Site data must have file_type site_timesheet"
  else if site.pay_period_end_date.isNone then
    .error "Site data must contain pay_period_end_date"
  else if travel.file_type ≠ "travel_time" then
    .error "Travel data must have file_type travel_time"
  else if od.file_type ≠ "overtime_rates" then
    .error "Overtime data must have file_type overtime_rates"
  else .ok ()

/-- All site entry dates, in traversal order. -/
def siteDates (site : SiteData) : List PyDate :=
  site.employees.flatMap (fun emp => emp.entries.map RawEntry.entry_date)

/-- All travel entry dates except year-1900 placeholder dates. -/
def travelDatesReal (travel : TravelData) : List PyDate :=
  (travel.employees.flatMap (fun emp => emp.entries.map RawEntry.entry_date)).filter
    (fun d => !(dateYear1900 d))

/-- DataConsolidator._validate_date_ranges: the only raising path is a site
plus non-placeholder travel date span over 365 days; spans of 31 to 365 days
and out-of-window dates only print warnings. -/
def validateDateRanges (site : SiteData) (travel : TravelData) : Except String Unit :=
  let allDates := siteDates site ++ travelDatesReal travel
  match allDates.min?, allDates.max? with
  | some mn, some mx => if mx - mn > 365 then .error "Date range too large" else .ok ()
  | _, _ => .ok ()

/-- Mixed-period extension in consolidate: when the site dates span more than
30 days, the pay-period end date is extended to the latest site date. -/
def extendedPayPeriodEnd (site : SiteData) (pp0 : PyDate) : PyDate :=
  match (siteDates site).min?, (siteDates site).max? with
  | some mn, some mx => if mx - mn > 30 then mx else pp0
  | _, _ => pp0

/-- Ascending comparison of daily entries by date (sort key=entry_date). -/
def entryDateLe (a b : DailyEntry) : Bool := decide (a.entry_date ≤ b.entry_date)

/-- Python strict string comparison: lexicographic by code point, written on
the underlying character lists (the library Decidable instance for the String
order does not evaluate by kernel reduction; pyStrLt_iff below proves this
function computes exactly the core lexicographic list order). -/
def pyStrLt : List Char → List Char → Bool
  | [], [] => false
  | [], _ :: _ => true
  | _ :: _, [] => false
  | c :: cs, d :: ds => if c < d then true else if d < c then false else pyStrLt cs ds

/-- Python string comparison a <= b, as the negation of b < a. -/
def pyStrLe (a b : String) : Bool := !(pyStrLt b.data a.data)

theorem pyStrLt_iff : ∀ a b : List Char, pyStrLt a b = true ↔ List.lt a b := by
  intro a
  induction a with
  | nil =>
    intro b
    cases b with
    | nil =>
      simp only [pyStrLt]
      constructor
      · intro h; cases h
      · intro h; cases h
    | cons c cs =>
      simp only [pyStrLt]
      exact ⟨fun _ => List.lt.nil c cs, fun _ => trivial⟩
  | cons c cs ih =>
    intro b
    cases b with
    | nil =>
      simp only [pyStrLt]
      constructor
      · intro h; cases h
      · intro h; cases h
    | cons d ds =>
      simp only [pyStrLt]
      by_cases h1 : c < d
      · simp only [if_pos h1]
        exact ⟨fun _ => List.lt.head cs ds h1, fun _ => trivial⟩
      · simp only [if_neg h1]
        by_cases h2 : d < c
        · simp only [if_pos h2]
          constructor
          · intro h; cases h
          · intro h
            cases h with
            | head _ _ h3 => exact absurd h3 h1
            | tail h3 h4 _ => exact absurd h2 h4
        · simp only [if_neg h2]
          constructor
          · intro h; exact List.lt.tail h1 h2 ((ih ds).mp h)
          · intro h
            cases h with
            | head _ _ h3 => exact absurd h3 h1
            | tail _ _ h5 => exact (ih ds).mpr h5

theorem pyStrLe_iff (a b : String) : pyStrLe a b = true ↔ ¬ List.lt b.data a.data := by
  unfold pyStrLe
  constructor
  · intro h hlt
    rw [← pyStrLt_iff] at hlt
    rw [hlt] at h
    simp at h
  · intro h
    cases hcase : pyStrLt b.data a.data with
    | true => exact absurd ((pyStrLt_iff _ _).mp hcase) h
    | false => rfl

/-- Ascending comparison of timesheets by employee name (sort key=name). -/
def tsNameLe (a b : EmployeeTimesheet) : Bool :=
  pyStrLe a.employee_name b.employee_name

/-- Timesheet built from one consolidated dict slot: entries sorted by date. -/
def mkTimesheet (pp : PyDate) (name : String) (des : List DailyEntry) :
    EmployeeTimesheet :=
  { employee_name := name, daily_entries := pySort entryDateLe des,
    pay_period_end_date := pp }

/-- Conversion of the consolidated dict into EmployeeTimesheet values: entries
sorted by date, constructor validation propagated as an error. -/
def buildTimesheets (pp : PyDate) :
    List (String × List DailyEntry) → Except String (List EmployeeTimesheet)
  | [] => .ok []
  | (name, des) :: rest =>
    match (mkTimesheet pp name des).validate with
    | .error m => .error m
    | .ok _ =>
      match buildTimesheets pp rest with
      | .error m => .error m
      | .ok l => .ok (mkTimesheet pp name des :: l)

/-- Result of DataConsolidator.consolidate together with the consolidator
state read later by get_unknown_region_report. -/
structure ConsolidateOutput where
  payroll : PayrollData
  unknown_regions : List String
  unknown_region_entries : List UnknownRecord
deriving DecidableEq, Repr

/-- Entry creator used for site employees in consolidate. -/
def siteCreator (od : OvertimeData) (valid_regions : Option (List String)) :
    String → RawEntry → Except String DailyEntry :=
  fun name e => createDailyEntryFromSiteData e od name valid_regions

/-- Entry creator used for travel employees in consolidate (the canonical
name does not influence travel entries). -/
def travelCreator (pp : PyDate) (valid_regions : Option (List String)) :
    String → RawEntry → Except String DailyEntry :=
  fun _ e => createDailyEntryFromTravelData e pp valid_regions

/-- Final steps of consolidate: sort the timesheets by name, reject an empty
result, and run the PayrollData constructor validation. -/
def finalizePayroll (pp : PyDate) (tss : List EmployeeTimesheet) (st : ConsState) :
    Except String ConsolidateOutput :=
  if (pySort tsNameLe tss).isEmpty then
    .error "No employee data found to consolidate"
  else
    match PayrollData.validate ⟨pySort tsNameLe tss, pp⟩ with
    | .error m => .error m
    | .ok _ =>
      .ok ⟨⟨pySort tsNameLe tss, pp⟩, st.unknown_regions, st.unknown_region_entries⟩

/-- DataConsolidator.consolidate. -/
def consolidate (site : SiteData) (travel : TravelData) (od : OvertimeData)
    (valid_regions : Option (List String)) : Except String ConsolidateOutput :=
  match validateInputData site travel od with
  | .error m => .error m
  | .ok _ =>
  match site.pay_period_end_date with
  | none => .error "Pay period end date not found in site data"
  | some pp0 =>
  match validateDateRanges site travel with
  | .error m => .error m
  | .ok _ =>
  match processEmployees (siteCreator od valid_regions) site.employees ⟨[], [], []⟩ with
  | .error m => .error m
  | .ok st1 =>
  match processEmployees (travelCreator (extendedPayPeriodEnd site pp0) valid_regions)
      travel.employees st1 with
  | .error m => .error m
  | .ok st2 =>
  match buildTimesheets (extendedPayPeriodEnd site pp0) st2.employees with
  | .error m => .error m
  | .ok tss => finalizePayroll (extendedPayPeriodEnd site pp0) tss st2

/-- Shape of DataConsolidator.get_unknown_region_report: the distinct unknown
regions, non-empty ones only, sorted; and the full offending-entry list (the
Python dicts carry the same fields with the date rendered in ISO format,
which is injective on dates, so the record list is kept as records). -/
structure UnknownRegionReport where
  unknown_regions : List String
  unknown_region_entries : List UnknownRecord
deriving DecidableEq, Repr

/-- Ascending string comparison for sorted() over region names. -/
def strLe (a b : String) : Bool := pyStrLe a b

/-- DataConsolidator.get_unknown_region_report. -/
def get_unknown_region_report (o : ConsolidateOutput) : UnknownRegionReport :=
  { unknown_regions := pySort strLe (o.unknown_regions.filter (fun r => r ≠ "")),
    unknown_region_entries := o.unknown_region_entries }

/-- State-extension order: later consolidation states keep every employee
entry, unknown region and unknown record already accumulated. -/
def ConsState.Advances (st st2 : ConsState) : Prop :=
  (∀ name l, (name, l) ∈ st.employees →
    ∃ l2, (name, l2) ∈ st2.employees ∧ ∀ de ∈ l, de ∈ l2)
  ∧ (∀ r ∈ st.unknown_regions, r ∈ st2.unknown_regions)
  ∧ (∀ u ∈ st.unknown_region_entries, u ∈ st2.unknown_region_entries)

theorem advances_refl (st : ConsState) : st.Advances st :=
  ⟨fun name l h => ⟨l, h, fun _ hde => hde⟩, fun _ h => h, fun _ h => h⟩

theorem advances_trans {st st2 st3 : ConsState}
    (h1 : st.Advances st2) (h2 : st2.Advances st3) : st.Advances st3 := by
  refine ⟨?_, fun r hr => h2.2.1 r (h1.2.1 r hr), fun u hu => h2.2.2 u (h1.2.2 u hu)⟩
  intro name l hl
  obtain ⟨l2, hl2, hsub⟩ := h1.1 name l hl
  obtain ⟨l3, hl3, hsub2⟩ := h2.1 name l2 hl2
  exact ⟨l3, hl3, fun de hde => hsub2 de (hsub de hde)⟩

theorem updateEmployees_mono (emps : List (String × List DailyEntry))
    (name : String) (de : DailyEntry) :
    ∀ n l, (n, l) ∈ emps →
      ∃ l2, (n, l2) ∈ updateEmployees emps name de ∧ ∀ x ∈ l, x ∈ l2 := by
  intro n l hl
  unfold updateEmployees
  split
  · by_cases hn : n = name
    · refine ⟨l ++ [de], ?_, fun x hx => List.mem_append_left _ hx⟩
      have := List.mem_map_of_mem
        (fun p : String × List DailyEntry =>
          if p.1 == name then (p.1, p.2 ++ [de]) else p) hl
      simpa [hn] using this
    · refine ⟨l, ?_, fun x hx => hx⟩
      have := List.mem_map_of_mem
        (fun p : String × List DailyEntry =>
          if p.1 == name then (p.1, p.2 ++ [de]) else p) hl
      simpa [hn] using this
  · exact ⟨l, List.mem_append_left _ hl, fun x hx => hx⟩

theorem updateEmployees_mem_self (emps : List (String × List DailyEntry))
    (name : String) (de : DailyEntry) :
    ∃ l, (name, l) ∈ updateEmployees emps name de ∧ de ∈ l := by
  unfold updateEmployees
  split
  · rename_i hany
    obtain ⟨p, hp, hpn⟩ := List.any_eq_true.mp hany
    have hn : p.1 = name := by simpa using hpn
    refine ⟨p.2 ++ [de], ?_, List.mem_append_right _ (List.mem_singleton.mpr rfl)⟩
    have := List.mem_map_of_mem
      (fun p : String × List DailyEntry =>
        if p.1 == name then (p.1, p.2 ++ [de]) else p) hp
    simpa [hn] using this
  · exact ⟨[de], List.mem_append_right _ (by simp), by simp⟩

theorem addEntry_advances (st : ConsState) (name : String) (de : DailyEntry) :
    st.Advances (st.addEntry name de) := by
  refine ⟨fun n l hl => updateEmployees_mono st.employees name de n l hl, ?_, ?_⟩
  · intro r hr
    show r ∈ (if de.region_valid then st.unknown_regions
      else insertSet st.unknown_regions (de.original_region.getD ""))
    split
    · exact hr
    · exact mem_insertSet_of_mem _ _ _ hr
  · intro u hu
    show u ∈ (if de.region_valid then st.unknown_region_entries
      else st.unknown_region_entries ++ _)
    split
    · exact hu
    · exact List.mem_append_left _ hu

theorem addEntry_records (st : ConsState) (name : String) (de : DailyEntry)
    (hq : de.region_valid = false) :
    (de.original_region.getD "") ∈ (st.addEntry name de).unknown_regions
    ∧ ({ employee_name := name, original_region := de.original_region,
          entry_date := de.entry_date, hours := de.hours } : UnknownRecord) ∈
        (st.addEntry name de).unknown_region_entries := by
  unfold ConsState.addEntry
  rw [hq]
  exact ⟨mem_insertSet_self _ _,
    List.mem_append_right _ (List.mem_singleton.mpr rfl)⟩

theorem ensureEmployee_advances (st : ConsState) (name : String) :
    st.Advances (st.ensureEmployee name) := by
  unfold ConsState.ensureEmployee
  split
  · exact advances_refl st
  · exact ⟨fun n l hl => ⟨l, List.mem_append_left _ hl, fun x hx => hx⟩,
      fun r hr => hr, fun u hu => hu⟩

theorem processEntries_advances (c : RawEntry → Except String DailyEntry) (name : String) :
    ∀ (es : List RawEntry) (st st2 : ConsState),
      processEntries c name es st = .ok st2 → st.Advances st2 := by
  intro es
  induction es with
  | nil =>
    intro st st2 h
    unfold processEntries at h
    cases h
    exact advances_refl _
  | cons e rest ih =>
    intro st st2 h
    unfold processEntries at h
    split at h
    · exact absurd h (by simp)
    · exact advances_trans (addEntry_advances st name _) (ih _ st2 h)

theorem processEntries_mem (c : RawEntry → Except String DailyEntry) (name : String) :
    ∀ (es : List RawEntry) (st st2 : ConsState),
      processEntries c name es st = .ok st2 →
      ∀ e ∈ es, ∃ de, c e = .ok de
        ∧ (∃ l, (name, l) ∈ st2.employees ∧ de ∈ l)
        ∧ (de.region_valid = false →
            (de.original_region.getD "") ∈ st2.unknown_regions
            ∧ ({ employee_name := name, original_region := de.original_region,
                  entry_date := de.entry_date, hours := de.hours } : UnknownRecord) ∈
                st2.unknown_region_entries) := by
  intro es
  induction es with
  | nil => intro st st2 _ e he; simp at he
  | cons e0 rest ih =>
    intro st st2 h e he
    unfold processEntries at h
    split at h
    · exact absurd h (by simp)
    · rename_i de0 hc
      rcases List.mem_cons.mp he with rfl | he'
      · have hadv := processEntries_advances c name rest _ _ h
        refine ⟨de0, hc, ?_, ?_⟩
        · obtain ⟨l, hl, hmem⟩ := updateEmployees_mem_self st.employees name de0
          obtain ⟨l2, hl2, hsub⟩ := hadv.1 name l hl
          exact ⟨l2, hl2, hsub de0 hmem⟩
        · intro hq
          obtain ⟨hr, hu⟩ := addEntry_records st name de0 hq
          exact ⟨hadv.2.1 _ hr, hadv.2.2 _ hu⟩
      · exact ih _ st2 h e he'

theorem processEmployees_advances (c : String → RawEntry → Except String DailyEntry) :
    ∀ (emps : List RawEmployee) (st st2 : ConsState),
      processEmployees c emps st = .ok st2 → st.Advances st2 := by
  intro emps
  induction emps with
  | nil =>
    intro st st2 h
    unfold processEmployees at h
    cases h
    exact advances_refl _
  | cons emp rest ih =>
    intro st st2 h
    unfold processEmployees at h
    split at h
    · exact absurd h (by simp)
    · rename_i stA hA
      exact advances_trans
        (advances_trans (ensureEmployee_advances st emp.employee_name)
          (processEntries_advances _ _ emp.entries _ stA hA))
        (ih stA st2 h)

theorem processEmployees_mem (c : String → RawEntry → Except String DailyEntry) :
    ∀ (emps : List RawEmployee) (st st2 : ConsState),
      processEmployees c emps st = .ok st2 →
      ∀ emp ∈ emps, ∀ e ∈ emp.entries,
        ∃ de, c emp.employee_name e = .ok de
          ∧ (∃ l, (emp.employee_name, l) ∈ st2.employees ∧ de ∈ l)
          ∧ (de.region_valid = false →
              (de.original_region.getD "") ∈ st2.unknown_regions
              ∧ ({ employee_name := emp.employee_name,
                    original_region := de.original_region,
                    entry_date := de.entry_date, hours := de.hours } : UnknownRecord) ∈
                  st2.unknown_region_entries) := by
  intro emps
  induction emps with
  | nil => intro st st2 _ emp hemp; simp at hemp
  | cons emp0 rest ih =>
    intro st st2 h emp hemp e he
    unfold processEmployees at h
    split at h
    · exact absurd h (by simp)
    · rename_i stA hA
      rcases List.mem_cons.mp hemp with rfl | hemp'
      · obtain ⟨de, hde, ⟨l, hl, hmem⟩, hunk⟩ :=
          processEntries_mem _ _ emp.entries _ stA hA e he
        have hadv := processEmployees_advances c rest stA st2 h
        refine ⟨de, hde, ?_, ?_⟩
        · obtain ⟨l2, hl2, hsub⟩ := hadv.1 emp.employee_name l hl
          exact ⟨l2, hl2, hsub de hmem⟩
        · intro hq
          obtain ⟨hr, hu⟩ := hunk hq
          exact ⟨hadv.2.1 _ hr, hadv.2.2 _ hu⟩
      · exact ih stA st2 h emp hemp' e he

theorem buildTimesheets_mem (pp : PyDate) :
    ∀ (pairs : List (String × List DailyEntry)) (tss : List EmployeeTimesheet),
      buildTimesheets pp pairs = .ok tss →
      ∀ name l, (name, l) ∈ pairs →
        ∃ ts ∈ tss, ts.employee_name = name ∧ ∀ de ∈ l, de ∈ ts.daily_entries := by
  intro pairs
  induction pairs with
  | nil => intro tss _ name l hl; simp at hl
  | cons p rest ih =>
    rcases p with ⟨n0, des0⟩
    intro tss h name l hl
    unfold buildTimesheets at h
    split at h
    · exact absurd h (by simp)
    · split at h
      · exact absurd h (by simp)
      · rename_i l' hrest
        cases h
        rcases List.mem_cons.mp hl with heq | hl'
        · have hn : name = n0 := congrArg Prod.fst heq
          have hd : l = des0 := congrArg Prod.snd heq
          refine ⟨_, List.mem_cons_self _ _, hn.symm, ?_⟩
          intro de hde
          show de ∈ (mkTimesheet pp n0 des0).daily_entries
          exact (pySort_perm entryDateLe des0).mem_iff.mpr (hd ▸ hde)
        · obtain ⟨ts, hts, hn, hsub⟩ := ih l' hrest name l hl'
          exact ⟨ts, List.mem_cons_of_mem _ hts, hn, hsub⟩

theorem mem_report_regions (o : ConsolidateOutput) (r : String) (hne : r ≠ "")
    (hmem : r ∈ o.unknown_regions) :
    r ∈ (get_unknown_region_report o).unknown_regions := by
  unfold get_unknown_region_report
  exact (pySort_perm strLe _).mem_iff.mpr
    (List.mem_filter.mpr ⟨hmem, by simpa using hne⟩)

theorem mkDailyEntry_ok (c de : DailyEntry) (h : mkDailyEntry c = .ok de) :
    de = c := by
  unfold mkDailyEntry at h
  split at h
  · cases h; rfl
  · exact absurd h (by simp)

theorem createSite_quarantined (e : RawEntry) (od : OvertimeData) (name : String)
    (vr : List String) (de : DailyEntry) (hnotin : e.region_name ∉ vr)
    (hok : createDailyEntryFromSiteData e od name (some vr) = .ok de) :
    de.region_name = "Unknown" ∧ de.region_valid = false
    ∧ de.original_region = some e.region_name
    ∧ de.entry_date = e.entry_date ∧ de.hours = e.hours := by
  unfold createDailyEntryFromSiteData at hok
  match hht : HourType.ofString e.hour_type with
  | none =>
    rw [hht] at hok
    exact absurd hok (by simp)
  | some ht =>
    rw [hht] at hok
    have hde := mkDailyEntry_ok _ _ hok
    subst hde
    refine ⟨by simp [hnotin], by simp [hnotin], rfl, rfl, rfl⟩

theorem createTravel_quarantined (e : RawEntry) (pp : PyDate)
    (vr : List String) (de : DailyEntry) (hnotin : e.region_name ∉ vr)
    (hok : createDailyEntryFromTravelData e pp (some vr) = .ok de) :
    de.region_name = "Unknown" ∧ de.region_valid = false
    ∧ de.original_region = some e.region_name ∧ de.hours = e.hours
    ∧ de.entry_date = (if dateYear1900 e.entry_date then pp else e.entry_date) := by
  unfold createDailyEntryFromTravelData at hok
  have hde := mkDailyEntry_ok _ _ hok
  subst hde
  refine ⟨by simp [hnotin], by simp [hnotin], rfl, rfl, rfl⟩

theorem finalizePayroll_ok (pp : PyDate) (tss : List EmployeeTimesheet)
    (st : ConsState) (out : ConsolidateOutput)
    (h : finalizePayroll pp tss st = .ok out) :
    out.payroll.employee_timesheets = pySort tsNameLe tss
    ∧ out.unknown_regions = st.unknown_regions
    ∧ out.unknown_region_entries = st.unknown_region_entries := by
  unfold finalizePayroll at h
  split at h
  · exact absurd h (by simp)
  · split at h
    · exact absurd h (by simp)
    · cases h
      exact ⟨rfl, rfl, rfl⟩

/-- Inversion of a successful consolidate run into its pipeline stages: the
pay-period end date read from the site data, the state after the site pass,
the state after the travel pass, the unsorted timesheet list, and the output
fields produced by the finalization. -/
theorem consolidate_ok_inversion (site : SiteData) (travel : TravelData)
    (od : OvertimeData) (vreg : Option (List String)) (out : ConsolidateOutput)
    (hok : consolidate site travel od vreg = .ok out) :
    ∃ pp0 st1 st2 tss,
      site.pay_period_end_date = some pp0
      ∧ processEmployees (siteCreator od vreg) site.employees ⟨[], [], []⟩ = .ok st1
      ∧ processEmployees (travelCreator (extendedPayPeriodEnd site pp0) vreg)
          travel.employees st1 = .ok st2
      ∧ buildTimesheets (extendedPayPeriodEnd site pp0) st2.employees = .ok tss
      ∧ out.payroll.employee_timesheets = pySort tsNameLe tss
      ∧ out.unknown_regions = st2.unknown_regions
      ∧ out.unknown_region_entries = st2.unknown_region_entries := by
  unfold consolidate at hok
  split at hok
  · exact absurd hok (by simp)
  · split at hok
    · exact absurd hok (by simp)
    · rename_i pp0 hpp
      split at hok
      · exact absurd hok (by simp)
      · split at hok
        · exact absurd hok (by simp)
        · rename_i st1 hsite
          split at hok
          · exact absurd hok (by simp)
          · rename_i st2 htravel
            split at hok
            · exact absurd hok (by simp)
            · rename_i tss hbuild
              obtain ⟨h1, h2, h3⟩ := finalizePayroll_ok _ tss st2 out hok
              exact ⟨pp0, st1, st2, tss, hpp, hsite, htravel, hbuild, h1, h2, h3⟩

/-- C3 (amended): under a provided valid-region set, every entry whose region
is not in the set — from the site source as well as from the travel source —
is retained, not discarded: the DailyEntry built for it carries region_name
Unknown, region_valid false and the original region text, it ends up in the
daily entries of the output timesheet of its employee, and the unknown-region
report records the employee name, original region, entry date (for travel
entries the resolved date, with year-1900 placeholders replaced by the
pay-period end) and hours; the original region also appears among the
distinct unknown_regions of the report whenever the original text is
non-empty (the report filters out empty strings). -/
theorem c3_region_quarantine (site : SiteData) (travel : TravelData)
    (od : OvertimeData) (vr : List String) (out : ConsolidateOutput)
    (hok : consolidate site travel od (some vr) = .ok out) :
    (∀ emp ∈ site.employees, ∀ e ∈ emp.entries, e.region_name ∉ vr →
      ∃ de, createDailyEntryFromSiteData e od emp.employee_name (some vr) = .ok de
        ∧ de.region_name = "Unknown" ∧ de.region_valid = false
        ∧ de.original_region = some e.region_name
        ∧ (∃ ts ∈ out.payroll.employee_timesheets,
            ts.employee_name = emp.employee_name ∧ de ∈ ts.daily_entries)
        ∧ ({ employee_name := emp.employee_name,
              original_region := some e.region_name,
              entry_date := e.entry_date, hours := e.hours } : UnknownRecord) ∈
            (get_unknown_region_report out).unknown_region_entries
        ∧ (e.region_name ≠ "" →
            e.region_name ∈ (get_unknown_region_report out).unknown_regions))
    ∧ (∀ emp ∈ travel.employees, ∀ e ∈ emp.entries, e.region_name ∉ vr →
      ∀ pp0, site.pay_period_end_date = some pp0 →
      ∃ de, createDailyEntryFromTravelData e (extendedPayPeriodEnd site pp0)
          (some vr) = .ok de
        ∧ de.region_name = "Unknown" ∧ de.region_valid = false
        ∧ de.original_region = some e.region_name
        ∧ de.hours = e.hours
        ∧ (∃ ts ∈ out.payroll.employee_timesheets,
            ts.employee_name = emp.employee_name ∧ de ∈ ts.daily_entries)
        ∧ ({ employee_name := emp.employee_name,
              original_region := some e.region_name,
              entry_date := de.entry_date, hours := e.hours } : UnknownRecord) ∈
            (get_unknown_region_report out).unknown_region_entries
        ∧ (e.region_name ≠ "" →
            e.region_name ∈ (get_unknown_region_report out).unknown_regions)) := by
  obtain ⟨pp0, st1, st2, tss, hpp, hsite, htravel, hbuild, hfin1, hfin2, hfin3⟩ :=
    consolidate_ok_inversion site travel od (some vr) out hok
  constructor
  · intro emp hemp e he hnotin
    obtain ⟨de, hde, ⟨l, hl, hmem⟩, hunk⟩ :=
      processEmployees_mem _ site.employees _ st1 hsite emp hemp e he
    obtain ⟨hreg, hval, horig, hdate, hhours⟩ :=
      createSite_quarantined e od emp.employee_name vr de hnotin hde
    have hadv := processEmployees_advances _ travel.employees st1 st2 htravel
    obtain ⟨l2, hl2, hsub⟩ := hadv.1 emp.employee_name l hl
    obtain ⟨ts, hts, hn, hsubts⟩ :=
      buildTimesheets_mem _ st2.employees tss hbuild emp.employee_name l2 hl2
    obtain ⟨hr1, hu1⟩ := hunk hval
    have hu2 := hadv.2.2 _ hu1
    have hr2 := hadv.2.1 _ hr1
    refine ⟨de, hde, hreg, hval, horig, ?_, ?_, ?_⟩
    · refine ⟨ts, ?_, hn, hsubts de (hsub de hmem)⟩
      rw [hfin1]
      exact (pySort_perm tsNameLe tss).mem_iff.mpr hts
    · have hrec : (⟨emp.employee_name, de.original_region,
            de.entry_date, de.hours⟩ : UnknownRecord)
          = ⟨emp.employee_name, some e.region_name,
            e.entry_date, e.hours⟩ := by
        rw [horig, hdate, hhours]
      show _ ∈ (get_unknown_region_report out).unknown_region_entries
      unfold get_unknown_region_report
      show _ ∈ out.unknown_region_entries
      rw [hfin3]
      exact hrec ▸ hu2
    · intro hne
      rw [horig] at hr2
      apply mem_report_regions out _ hne
      rw [hfin2]
      simpa using hr2
  · intro emp hemp e he hnotin pp1 hpp1
    rw [hpp1] at hpp
    obtain rfl := Option.some.inj hpp
    obtain ⟨de, hde, ⟨l, hl, hmem⟩, hunk⟩ :=
      processEmployees_mem _ travel.employees st1 st2 htravel emp hemp e he
    obtain ⟨hreg, hval, horig, hhours, hdate⟩ :=
      createTravel_quarantined e (extendedPayPeriodEnd site pp1) vr de hnotin hde
    obtain ⟨ts, hts, hn, hsubts⟩ :=
      buildTimesheets_mem _ st2.employees tss hbuild emp.employee_name l hl
    obtain ⟨hr1, hu1⟩ := hunk hval
    refine ⟨de, hde, hreg, hval, horig, hhours, ?_, ?_, ?_⟩
    · refine ⟨ts, ?_, hn, hsubts de hmem⟩
      rw [hfin1]
      exact (pySort_perm tsNameLe tss).mem_iff.mpr hts
    · have hrec : (⟨emp.employee_name, de.original_region,
            de.entry_date, de.hours⟩ : UnknownRecord)
          = ⟨emp.employee_name, some e.region_name,
            de.entry_date, e.hours⟩ := by
        rw [horig, hhours]
      show _ ∈ (get_unknown_region_report out).unknown_region_entries
      unfold get_unknown_region_report
      show _ ∈ out.unknown_region_entries
      rw [hfin3]
      exact hrec ▸ hu1
    · intro hne
      rw [horig] at hr1
      apply mem_report_regions out _ hne
      rw [hfin2]
      simpa using hr1

/-- Concrete site entry with the unvalidated region South. -/
def exQEntry : RawEntry :=
  { entry_date := 739100, region_name := "South", hours := 8, hour_type := "REGULAR" }

/-- Concrete site employee holding the South entry. -/
def exQEmployee : RawEmployee := { employee_name := "Alice", entries := [exQEntry] }

/-- Concrete parsed site data for the quarantine example. -/
def exQSite : SiteData :=
  { file_type := "site_timesheet", pay_period_end_date := some 739100,
    employees := [exQEmployee] }

/-- Travel data with no employees. -/
def exTravelNone : TravelData := { file_type := "travel_time", employees := [] }

/-- Overtime data with an empty lookup. -/
def exOdNone : OvertimeData := { file_type := "overtime_rates", overtime_rates_lookup := [] }

/-- The quarantined DailyEntry the consolidator builds for the South entry. -/
def exQDe : DailyEntry :=
  { entry_date := 739100, region_name := "Unknown", hours := 8,
    hour_type := HourType.REGULAR, original_region := some "South",
    region_valid := false }

/-- Concrete travel entry with a year-1900 placeholder date and the
unvalidated region Roadtrip. -/
def exQTravelEntry : RawEntry :=
  { entry_date := placeholderDate, region_name := "Roadtrip", hours := 2,
    hour_type := "TRAVEL" }

/-- Concrete travel employee holding the Roadtrip entry. -/
def exQTravelEmp : RawEmployee :=
  { employee_name := "Tom", entries := [exQTravelEntry] }

/-- Concrete parsed travel data for the quarantine example. -/
def exQTravel : TravelData :=
  { file_type := "travel_time", employees := [exQTravelEmp] }

/-- The quarantined DailyEntry the consolidator builds for the Roadtrip
travel entry: its placeholder date is resolved to the pay-period end. -/
def exQTravelDe : DailyEntry :=
  { entry_date := 739100, region_name := "Unknown", hours := 2,
    hour_type := HourType.TRAVEL, original_region := some "Roadtrip",
    region_valid := false }

/-- The full consolidate output for the quarantine example. -/
def exQOut : ConsolidateOutput :=
  { payroll :=
      { employee_timesheets :=
          [{ employee_name := "Alice", daily_entries := [exQDe],
             pay_period_end_date := 739100 },
           { employee_name := "Tom", daily_entries := [exQTravelDe],
             pay_period_end_date := 739100 }],
        pay_period_end_date := 739100 },
    unknown_regions := ["South", "Roadtrip"],
    unknown_region_entries :=
      [{ employee_name := "Alice", original_region := some "South",
         entry_date := 739100, hours := 8 },
       { employee_name := "Tom", original_region := some "Roadtrip",
         entry_date := 739100, hours := 2 }] }

/-- C3 witness: the quarantine theorem applied to the concrete valid-region
set containing only North, a site entry for South and a placeholder-dated
travel entry for Roadtrip. -/
theorem c3_region_quarantine_witness :
    (∃ de, createDailyEntryFromSiteData exQEntry exOdNone exQEmployee.employee_name
        (some ["North"]) = .ok de
      ∧ de.region_name = "Unknown" ∧ de.region_valid = false
      ∧ de.original_region = some exQEntry.region_name
      ∧ (∃ ts ∈ exQOut.payroll.employee_timesheets,
          ts.employee_name = exQEmployee.employee_name ∧ de ∈ ts.daily_entries)
      ∧ (⟨exQEmployee.employee_name, some exQEntry.region_name,
          exQEntry.entry_date, exQEntry.hours⟩ : UnknownRecord) ∈
          (get_unknown_region_report exQOut).unknown_region_entries
      ∧ (exQEntry.region_name ≠ "" →
          exQEntry.region_name ∈ (get_unknown_region_report exQOut).unknown_regions))
    ∧ (∃ de, createDailyEntryFromTravelData exQTravelEntry
          (extendedPayPeriodEnd exQSite 739100) (some ["North"]) = .ok de
      ∧ de.region_name = "Unknown" ∧ de.region_valid = false
      ∧ de.original_region = some exQTravelEntry.region_name
      ∧ de.hours = exQTravelEntry.hours
      ∧ (∃ ts ∈ exQOut.payroll.employee_timesheets,
          ts.employee_name = exQTravelEmp.employee_name ∧ de ∈ ts.daily_entries)
      ∧ (⟨exQTravelEmp.employee_name, some exQTravelEntry.region_name,
          de.entry_date, exQTravelEntry.hours⟩ : UnknownRecord) ∈
          (get_unknown_region_report exQOut).unknown_region_entries
      ∧ (exQTravelEntry.region_name ≠ "" →
          exQTravelEntry.region_name ∈
            (get_unknown_region_report exQOut).unknown_regions)) := by
  have h := c3_region_quarantine exQSite exQTravel exOdNone ["North"] exQOut (by decide)
  exact ⟨h.1 exQEmployee (by decide) exQEntry (by decide) (by decide),
    h.2 exQTravelEmp (by decide) exQTravelEntry (by decide) (by decide)
      739100 (by decide)⟩

/-- Concrete site entry whose raw region text is the empty string. -/
def exEmptyEntry : RawEntry :=
  { entry_date := 739100, region_name := "", hours := 8, hour_type := "REGULAR" }

/-- Concrete parsed site data holding the empty-region entry. -/
def exEmptySite : SiteData :=
  { file_type := "site_timesheet", pay_period_end_date := some 739100,
    employees := [{ employee_name := "Bob", entries := [exEmptyEntry] }] }

/-- C3 counterexample: an entry whose original region text is the empty
string is quarantined and recorded among the offending entries, yet its
original region does not appear in the distinct unknown_regions list of the
report (the report filters falsy region strings), so the claim that the
report always contains the original region name among unknown_regions fails
at this input. -/
theorem c3_empty_region_missing_from_report :
    (consolidate exEmptySite exTravelNone exOdNone (some ["North"])).map
        (fun o => (get_unknown_region_report o).unknown_regions) = .ok []
    ∧ (consolidate exEmptySite exTravelNone exOdNone (some ["North"])).map
        (fun o => (get_unknown_region_report o).unknown_region_entries)
      = .ok [⟨"Bob", some "", 739100, 8⟩]
    ∧ "" ∉ ([] : List String) := by
  refine ⟨by decide, by decide, by simp⟩

/-- One entry dict of the consolidated target JSON. -/
structure ExportEntry where
  entry_date : PyDate
  region_name : String
  hours : ℚ
  hour_type : String
  overtime_rate : Option ℚ
deriving DecidableEq, Repr

/-- Entry dict built by to_target_json_format: Unknown-region entries are
displayed with zero hours. -/
def exportEntryOf (e : DailyEntry) : ExportEntry :=
  { entry_date := e.entry_date, region_name := e.region_name,
    hours := if e.region_name = "Unknown" then 0 else e.hours,
    hour_type := e.hour_type.toStr, overtime_rate := e.overtime_rate }

/-- Deduplication key (entry_date, region_name, hours, hour_type), computed
from the entry dict, hence from the displayed hours. -/
def exportKey (e : ExportEntry) : PyDate × String × ℚ × String :=
  (e.entry_date, e.region_name, e.hours, e.hour_type)

/-- The seen-set loop of to_target_json_format: keep an entry only when its
key was not seen before, preserving first-seen order. -/
def dedupEntries : List ExportEntry → List (PyDate × String × ℚ × String) → List ExportEntry
  | [], _ => []
  | e :: rest, seen =>
    if exportKey e ∈ seen then dedupEntries rest seen
    else e :: dedupEntries rest (exportKey e :: seen)

/-- One employee dict of the consolidated target JSON. -/
structure ExportEmployee where
  employee_name : String
  daily_entries : List ExportEntry
deriving DecidableEq, Repr

/-- The consolidated target JSON. -/
structure ExportData where
  pay_period_end_date : PyDate
  employees : List ExportEmployee
deriving DecidableEq, Repr

/-- DataConsolidator.to_target_json_format. -/
def to_target_json_format (pd : PayrollData) : ExportData :=
  { pay_period_end_date := pd.pay_period_end_date,
    employees := pd.employee_timesheets.map (fun ts =>
      { employee_name := ts.employee_name,
        daily_entries := dedupEntries (ts.daily_entries.map exportEntryOf) [] }) }

theorem dedupEntries_subset :
    ∀ (l : List ExportEntry) (seen : List (PyDate × String × ℚ × String)),
      ∀ e ∈ dedupEntries l seen, e ∈ l := by
  intro l
  induction l with
  | nil => intro seen e he; simp [dedupEntries] at he
  | cons e0 rest ih =>
    intro seen e he
    unfold dedupEntries at he
    split at he
    · exact List.mem_cons_of_mem _ (ih seen e he)
    · rcases List.mem_cons.mp he with rfl | he'
      · exact List.mem_cons_self _ _
      · exact List.mem_cons_of_mem _ (ih _ e he')

theorem dedupEntries_key_spec :
    ∀ (l : List ExportEntry) (seen : List (PyDate × String × ℚ × String)),
      ((dedupEntries l seen).map exportKey).Nodup
      ∧ ∀ e ∈ dedupEntries l seen, exportKey e ∉ seen := by
  intro l
  induction l with
  | nil => intro seen; simp [dedupEntries]
  | cons e0 rest ih =>
    intro seen
    unfold dedupEntries
    split
    · exact ⟨(ih seen).1, fun e he => (ih seen).2 e he⟩
    · rename_i hnew
      obtain ⟨hnd, hseen⟩ := ih (exportKey e0 :: seen)
      constructor
      · rw [List.map_cons]
        refine List.nodup_cons.mpr ⟨?_, hnd⟩
        intro hc
        rcases List.mem_map.mp hc with ⟨e2, he2, hk⟩
        exact hseen e2 he2 (hk ▸ List.mem_cons_self _ _)
      · intro e he
        rcases List.mem_cons.mp he with rfl | he'
        · exact hnew
        · exact fun hc => hseen e he' (List.mem_cons_of_mem _ hc)

theorem length_filter_le_one_of_key (l : List ExportEntry)
    (k : PyDate × String × ℚ × String) (p : ExportEntry → Bool)
    (hnd : (l.map exportKey).Nodup)
    (hp : ∀ e ∈ l, p e = true → exportKey e = k) :
    (l.filter p).length ≤ 1 := by
  induction l with
  | nil => simp
  | cons e rest ih =>
    rw [List.map_cons] at hnd
    obtain ⟨hkey, hnd'⟩ := List.nodup_cons.mp hnd
    rw [List.filter_cons]
    split
    · rename_i hpe
      have hfe : rest.filter p = [] := by
        by_contra hne
        obtain ⟨e2, he2⟩ := List.exists_mem_of_ne_nil _ hne
        have he2' := List.mem_filter.mp he2
        have h1 := hp e (List.mem_cons_self _ _) hpe
        have h2 := hp e2 (List.mem_cons_of_mem _ he2'.1) he2'.2
        have hm := List.mem_map_of_mem exportKey he2'.1
        rw [h2, ← h1] at hm
        exact hkey hm
      rw [hfe]
      simp
    · exact ih hnd' (fun e2 h2 hp2 => hp e2 (List.mem_cons_of_mem _ h2) hp2)

/-- Shared fact: the consolidator records every quarantined site entry with
its employee name, original region, entry date and true hours, and every
quarantined travel entry with its employee name, original region, resolved
entry date and true hours. -/
theorem consolidate_records_unknown (site : SiteData) (travel : TravelData)
    (od : OvertimeData) (vr : List String) (out : ConsolidateOutput)
    (hok : consolidate site travel od (some vr) = .ok out) :
    (∀ emp ∈ site.employees, ∀ e ∈ emp.entries, e.region_name ∉ vr →
      (⟨emp.employee_name, some e.region_name, e.entry_date, e.hours⟩ : UnknownRecord) ∈
        (get_unknown_region_report out).unknown_region_entries)
    ∧ (∀ emp ∈ travel.employees, ∀ e ∈ emp.entries, e.region_name ∉ vr →
      ∃ d, (⟨emp.employee_name, some e.region_name, d, e.hours⟩ : UnknownRecord) ∈
        (get_unknown_region_report out).unknown_region_entries) := by
  obtain ⟨pp0, st1, st2, tss, hpp, hsite, htravel, hbuild, hfin1, hfin2, hfin3⟩ :=
    consolidate_ok_inversion site travel od (some vr) out hok
  constructor
  · intro emp hemp e he hnotin
    obtain ⟨de, hde, -, hunk⟩ :=
      processEmployees_mem _ site.employees _ st1 hsite emp hemp e he
    obtain ⟨hreg, hval, horig, hdate, hhours⟩ :=
      createSite_quarantined e od emp.employee_name vr de hnotin hde
    have hadv := processEmployees_advances _ travel.employees st1 st2 htravel
    have hu2 := hadv.2.2 _ (hunk hval).2
    have hrec : (⟨emp.employee_name, de.original_region,
          de.entry_date, de.hours⟩ : UnknownRecord)
        = ⟨emp.employee_name, some e.region_name,
          e.entry_date, e.hours⟩ := by
      rw [horig, hdate, hhours]
    show _ ∈ out.unknown_region_entries
    rw [hfin3]
    exact hrec ▸ hu2
  · intro emp hemp e he hnotin
    obtain ⟨de, hde, -, hunk⟩ :=
      processEmployees_mem _ travel.employees st1 st2 htravel emp hemp e he
    obtain ⟨hreg, hval, horig, hhours, hdate⟩ :=
      createTravel_quarantined e (extendedPayPeriodEnd site pp0) vr de hnotin hde
    have hrec : (⟨emp.employee_name, de.original_region,
          de.entry_date, de.hours⟩ : UnknownRecord)
        = ⟨emp.employee_name, some e.region_name,
          de.entry_date, e.hours⟩ := by
      rw [horig, hhours]
    refine ⟨de.entry_date, ?_⟩
    show _ ∈ out.unknown_region_entries
    rw [hfin3]
    exact hrec ▸ (hunk hval).2

/-- C9 (amended): every Unknown-region entry that survives export
deduplication is displayed with hours 0 instead of its real hour value
(exact duplicates by displayed key are dropped after the first), while the
unknown-region report still records each quarantined entry — site and
travel alike — with its true hours. -/
theorem c9_unknown_zero_redaction :
    (∀ pd : PayrollData, ∀ empOut ∈ (to_target_json_format pd).employees,
      ∀ e ∈ empOut.daily_entries, e.region_name = "Unknown" → e.hours = 0)
    ∧ (∀ (site : SiteData) (travel : TravelData) (od : OvertimeData)
        (vr : List String) (out : ConsolidateOutput),
        consolidate site travel od (some vr) = .ok out →
        (∀ emp ∈ site.employees, ∀ e ∈ emp.entries, e.region_name ∉ vr →
          (⟨emp.employee_name, some e.region_name,
            e.entry_date, e.hours⟩ : UnknownRecord) ∈
            (get_unknown_region_report out).unknown_region_entries)
        ∧ (∀ emp ∈ travel.employees, ∀ e ∈ emp.entries, e.region_name ∉ vr →
          ∃ d, (⟨emp.employee_name, some e.region_name,
            d, e.hours⟩ : UnknownRecord) ∈
            (get_unknown_region_report out).unknown_region_entries)) := by
  constructor
  · intro pd empOut hmem e he hreg
    rcases List.mem_map.mp hmem with ⟨ts, hts, rfl⟩
    have he' := dedupEntries_subset _ [] e he
    rcases List.mem_map.mp he' with ⟨de, hde, rfl⟩
    have : de.region_name = "Unknown" := hreg
    simp [exportEntryOf, this]
  · exact consolidate_records_unknown

/-- C10: the export deduplication key is computed from the displayed
(redacted) hours, so within one exported employee at most one
Unknown-region entry survives per (entry date, hour type): later
Unknown-region duplicates are dropped even when their real hours differ. -/
theorem c10_unknown_dedup_key (pd : PayrollData) :
    ∀ empOut ∈ (to_target_json_format pd).employees, ∀ (d : PyDate) (t : String),
      (empOut.daily_entries.filter (fun e =>
        e.region_name == "Unknown" && e.entry_date == d && e.hour_type == t)).length ≤ 1 := by
  intro empOut hmem d t
  rcases List.mem_map.mp hmem with ⟨ts, hts, rfl⟩
  apply length_filter_le_one_of_key _ (d, "Unknown", 0, t)
  · exact (dedupEntries_key_spec _ []).1
  · intro e hemem hp
    have hsub := dedupEntries_subset _ [] e hemem
    rcases List.mem_map.mp hsub with ⟨de, hde, rfl⟩
    simp only [Bool.and_eq_true, beq_iff_eq] at hp
    obtain ⟨⟨hreg, hdate⟩, ht⟩ := hp
    have hreg' : de.region_name = "Unknown" := hreg
    have hhours : (exportEntryOf de).hours = 0 := by
      simp [exportEntryOf, hreg']
    unfold exportKey
    rw [hdate, hreg, hhours, ht]

/-- First timesheet entry of the duplicate-Unknown example: real hours 5. -/
def dupDe5 : DailyEntry :=
  { entry_date := 739100, region_name := "Unknown", hours := 5,
    hour_type := HourType.REGULAR, original_region := some "South",
    region_valid := false }

/-- Second timesheet entry of the duplicate-Unknown example: real hours 7. -/
def dupDe7 : DailyEntry :=
  { entry_date := 739100, region_name := "Unknown", hours := 7,
    hour_type := HourType.REGULAR, original_region := some "West",
    region_valid := false }

/-- Payroll data with one employee carrying the two Unknown entries. -/
def dupPd : PayrollData :=
  { employee_timesheets :=
      [{ employee_name := "Carol", daily_entries := [dupDe5, dupDe7],
         pay_period_end_date := 739100 }],
    pay_period_end_date := 739100 }

/-- C9 counterexample: the employee has two Unknown-region entries with
different real hours (5 and 7), yet the export output holds a single entry:
the second Unknown entry does not appear in the output at all (with 0.0 or
any other hours), so the claim that every Unknown-region entry appears in
the output fails at this input. -/
theorem c9_duplicate_unknown_dropped :
    ((to_target_json_format dupPd).employees.map
      (fun emp => emp.daily_entries.length)) = [1]
    ∧ (dupPd.employee_timesheets.map (fun ts =>
        (ts.daily_entries.filter (fun e => e.region_name == "Unknown")).length)) = [2]
    ∧ dupDe5.hours ≠ dupDe7.hours := by
  refine ⟨by decide, by decide, by decide⟩

/-- Exported employee dict of the duplicate-Unknown example. -/
def dupOutEmp : ExportEmployee :=
  { employee_name := "Carol",
    daily_entries :=
      [{ entry_date := 739100, region_name := "Unknown", hours := 0,
         hour_type := "REGULAR", overtime_rate := none }] }

/-- C10 witness: the dedup-key theorem applied to the concrete
duplicate-Unknown payroll data at its exported employee. -/
theorem c10_unknown_dedup_key_witness :
    (dupOutEmp.daily_entries.filter (fun e =>
      e.region_name == "Unknown" && e.entry_date == (739100 : PyDate)
        && e.hour_type == "REGULAR")).length ≤ 1 :=
  c10_unknown_dedup_key dupPd dupOutEmp (by decide) 739100 "REGULAR"

/-- Timesheet of the redaction witness: one Unknown entry with real hours 7. -/
def exRedactPd : PayrollData :=
  { employee_timesheets :=
      [{ employee_name := "Dana",
         daily_entries :=
           [{ entry_date := 739100, region_name := "Unknown", hours := 7,
              hour_type := HourType.REGULAR, original_region := some "South",
              region_valid := false }],
         pay_period_end_date := 739100 }],
    pay_period_end_date := 739100 }

/-- Exported employee dict of the redaction witness. -/
def exRedactEmp : ExportEmployee :=
  { employee_name := "Dana",
    daily_entries :=
      [{ entry_date := 739100, region_name := "Unknown", hours := 0,
         hour_type := "REGULAR", overtime_rate := none }] }

/-- C9 witness: the redaction theorem applied to a concrete Unknown entry
(displayed hours 0) and to the concrete quarantine run (the report keeps the
true hours 8 of the site entry and 2 of the travel entry). -/
theorem c9_unknown_zero_redaction_witness :
    (({ entry_date := 739100, region_name := "Unknown", hours := 0,
        hour_type := "REGULAR", overtime_rate := none } : ExportEntry).hours = 0)
    ∧ (⟨"Alice", some "South", 739100, 8⟩ : UnknownRecord) ∈
        (get_unknown_region_report exQOut).unknown_region_entries
    ∧ ∃ d, (⟨"Tom", some "Roadtrip", d, 2⟩ : UnknownRecord) ∈
        (get_unknown_region_report exQOut).unknown_region_entries := by
  refine ⟨?_, ?_, ?_⟩
  · exact c9_unknown_zero_redaction.1 exRedactPd exRedactEmp (by decide) _ (by decide) rfl
  · exact (c9_unknown_zero_redaction.2 exQSite exQTravel exOdNone ["North"] exQOut
      (by decide)).1 exQEmployee (by decide) exQEntry (by decide) (by decide)
  · exact (c9_unknown_zero_redaction.2 exQSite exQTravel exOdNone ["North"] exQOut
      (by decide)).2 exQTravelEmp (by decide) exQTravelEntry (by decide) (by decide)

/-- TimesheetBuilderError, with constructors carrying exactly the data that
the Python error messages interpolate. -/
inductive BuilderError where
  | missingEmployeeID (employee_name : String)
  | noDailyEntries (employee_name : String)
  | missingTrackingMappings (regions : List String)
  | missingEarningsMappings (hour_types : List String)
deriving DecidableEq, Repr

/-- The list of mapping keys enumerated in a builder error message. -/
def BuilderError.enumeratedKeys : BuilderError → List String
  | .missingTrackingMappings rs => rs
  | .missingEarningsMappings hs => hs
  | _ => []

/-- TimesheetBuilder._validate_employee_timesheet: requires a truthy Xero
employee id and a non-empty entry list. -/
def validateEmployeeTimesheet (ts : EmployeeTimesheet) : Except BuilderError Unit :=
  if (ts.xero_employee_id.getD "") = "" then .error (.missingEmployeeID ts.employee_name)
  else if ts.daily_entries.isEmpty then .error (.noDailyEntries ts.employee_name)
  else .ok ()

/-- EmployeeTimesheet.get_regions: the set of entry region names (set
iteration modelled in first-occurrence order). -/
def get_regions (ts : EmployeeTimesheet) : List String :=
  dedupFirst (ts.daily_entries.map DailyEntry.region_name)

/-- The set of hour-type value strings appearing in the entries. -/
def hourTypeValues (ts : EmployeeTimesheet) : List String :=
  dedupFirst (ts.daily_entries.map (fun e => e.hour_type.toStr))

/-- Regions of the timesheet with no tracking mapping key. -/
def missingRegions (ts : EmployeeTimesheet)
    (tracking : List (String × Option String)) : List String :=
  (get_regions ts).filter (fun r => !(tracking.any (fun p => p.1 == r)))

/-- Hour types of the timesheet with no earnings mapping key. -/
def missingHourTypes (ts : EmployeeTimesheet)
    (earnings : List (String × String)) : List String :=
  (hourTypeValues ts).filter (fun h => !(earnings.any (fun p => p.1 == h)))

/-- TimesheetBuilder._validate_mappings: raise with the complete list of
missing regions when any region is unmapped, otherwise raise with the
complete list of missing hour types when any hour type is unmapped. -/
def validateMappings (ts : EmployeeTimesheet)
    (tracking : List (String × Option String))
    (earnings : List (String × String)) : Except BuilderError Unit :=
  if missingRegions ts tracking ≠ [] then
    .error (.missingTrackingMappings (missingRegions ts tracking))
  else if missingHourTypes ts earnings ≠ [] then
    .error (.missingEarningsMappings (missingHourTypes ts earnings))
  else .ok ()

/-- Python round(x, 2): round half to even at two decimal places. -/
def bankersRound2 (x : ℚ) : ℚ :=
  let y := x * 100
  let n : ℤ := ⌊y⌋
  let r : ℤ :=
    if y - n < 1/2 then n
    else if (1 : ℚ)/2 < y - n then n + 1
    else if Even n then n else n + 1
  (r : ℚ) / 100

/-- Grouping key of _group_daily_entries. -/
def groupKey (e : DailyEntry) : PyDate × String × HourType :=
  (e.entry_date, e.region_name, e.hour_type)

/-- One line of the Xero timesheet payload; absent optional fields model
omitted dict keys. -/
structure XeroLine where
  date : PyDate
  earningsRateID : String
  numberOfUnits : ℚ
  trackingItemID : Option String
  ratePerUnit : Option ℚ
deriving DecidableEq, Repr

/-- The Xero timesheet payload in PascalCase field order. -/
structure XeroTimesheet where
  payrollCalendarID : Option String
  employeeID : Option String
  startDate : PyDate
  endDate : PyDate
  status : String
  timesheetLines : List XeroLine
deriving DecidableEq, Repr

/-- TimesheetBuilder._build_timesheet_lines: group by (date, region, hour
type) in first-occurrence order, sum hours per group, drop non-positive
groups, include a tracking id only when truthy, and attach a rate override
only to overtime lines whose reference entry carries one.  The earnings
lookup falls back to the empty string only for unmapped hour types, which
_validate_mappings has already excluded when called from build_timesheet. -/
def buildTimesheetLines (ts : EmployeeTimesheet)
    (tracking : List (String × Option String))
    (earnings : List (String × String)) : List XeroLine :=
  (dedupFirst (ts.daily_entries.map groupKey)).filterMap (fun k =>
    match ts.daily_entries.filter (fun e => groupKey e == k) with
    | [] => none
    | ref :: grp =>
      let total := ((ref :: grp).map DailyEntry.hours).sum
      if total ≤ 0 then none
      else
        some { date := k.1,
               earningsRateID :=
                 (match earnings.find? (fun p => p.1 == k.2.2.toStr) with
                  | some p => p.2
                  | none => ""),
               numberOfUnits := bankersRound2 total,
               trackingItemID :=
                 (match (if tracking.isEmpty then none
                     else tracking.find? (fun p => p.1 == k.2.1)) with
                  | some p =>
                    match p.2 with
                    | some t => if t ≠ "" then some t else none
                    | none => none
                  | none => none),
               ratePerUnit :=
                 if ref.overtime_rate.isSome && decide (k.2.2 = HourType.OVERTIME)
                 then ref.overtime_rate else none })

/-- TimesheetBuilder._get_start_date: minimum entry date, or seven days
before the pay-period end for an entry-less timesheet. -/
def getStartDate (ts : EmployeeTimesheet) : PyDate :=
  match (ts.daily_entries.map DailyEntry.entry_date).min? with
  | none => ts.pay_period_end_date - 6
  | some mn => mn

/-- TimesheetBuilder.build_timesheet: validations, then the date window
(collapsed to a 7-day window anchored at the earliest entry date when the
entries span more than 30 days), then the payload fields. -/
def build_timesheet (ts : EmployeeTimesheet)
    (tracking : List (String × Option String))
    (earnings : List (String × String)) : Except BuilderError XeroTimesheet :=
  match validateEmployeeTimesheet ts with
  | .error e => .error e
  | .ok _ =>
  match validateMappings ts tracking earnings with
  | .error e => .error e
  | .ok _ =>
    .ok { payrollCalendarID :=
            (match ts.payroll_calendar_id with
             | some s => if s ≠ "" then some s else none
             | none => none),
          employeeID := ts.xero_employee_id,
          startDate :=
            (match (ts.daily_entries.map DailyEntry.entry_date).min?,
                (ts.daily_entries.map DailyEntry.entry_date).max? with
             | some mn, some mx => if mx - mn > 30 then mn else getStartDate ts
             | _, _ => getStartDate ts),
          endDate :=
            (match (ts.daily_entries.map DailyEntry.entry_date).min?,
                (ts.daily_entries.map DailyEntry.entry_date).max? with
             | some mn, some mx =>
               if mx - mn > 30 then mn + 6 else ts.pay_period_end_date
             | _, _ => ts.pay_period_end_date),
          status := "Draft",
          timesheetLines := buildTimesheetLines ts tracking earnings }

/-- C4: for a successfully built timesheet from a non-empty entry list, if
the entry dates span at most 30 days then StartDate is the earliest entry
date and EndDate is the pay-period end date; if they span more than 30
days, StartDate is the earliest entry date and EndDate is that date plus 6
days, ignoring the pay-period end date. -/
theorem c4_date_window (ts : EmployeeTimesheet)
    (tracking : List (String × Option String)) (earnings : List (String × String))
    (out : XeroTimesheet) (mn mx : PyDate)
    (hok : build_timesheet ts tracking earnings = .ok out)
    (hmin : (ts.daily_entries.map DailyEntry.entry_date).min? = some mn)
    (hmax : (ts.daily_entries.map DailyEntry.entry_date).max? = some mx) :
    (mx - mn ≤ 30 → out.startDate = mn ∧ out.endDate = ts.pay_period_end_date)
    ∧ (mx - mn > 30 → out.startDate = mn ∧ out.endDate = mn + 6) := by
  unfold build_timesheet at hok
  split at hok
  · exact absurd hok (by simp)
  · split at hok
    · exact absurd hok (by simp)
    · cases hok
      constructor
      · intro hle
        constructor
        · show (match (ts.daily_entries.map DailyEntry.entry_date).min?,
              (ts.daily_entries.map DailyEntry.entry_date).max? with
            | some mn, some mx => if mx - mn > 30 then mn else getStartDate ts
            | _, _ => getStartDate ts) = mn
          rw [hmin, hmax]
          show (if mx - mn > 30 then mn else getStartDate ts) = mn
          rw [if_neg (not_lt.mpr hle)]
          unfold getStartDate
          rw [hmin]
        · show (match (ts.daily_entries.map DailyEntry.entry_date).min?,
              (ts.daily_entries.map DailyEntry.entry_date).max? with
            | some mn, some mx =>
              if mx - mn > 30 then mn + 6 else ts.pay_period_end_date
            | _, _ => ts.pay_period_end_date) = ts.pay_period_end_date
          rw [hmin, hmax]
          show (if mx - mn > 30 then mn + 6 else ts.pay_period_end_date)
            = ts.pay_period_end_date
          rw [if_neg (not_lt.mpr hle)]
      · intro hgt
        constructor
        · show (match (ts.daily_entries.map DailyEntry.entry_date).min?,
              (ts.daily_entries.map DailyEntry.entry_date).max? with
            | some mn, some mx => if mx - mn > 30 then mn else getStartDate ts
            | _, _ => getStartDate ts) = mn
          rw [hmin, hmax]
          show (if mx - mn > 30 then mn else getStartDate ts) = mn
          rw [if_pos hgt]
        · show (match (ts.daily_entries.map DailyEntry.entry_date).min?,
              (ts.daily_entries.map DailyEntry.entry_date).max? with
            | some mn, some mx =>
              if mx - mn > 30 then mn + 6 else ts.pay_period_end_date
            | _, _ => ts.pay_period_end_date) = mn + 6
          rw [hmin, hmax]
          show (if mx - mn > 30 then mn + 6 else ts.pay_period_end_date) = mn + 6
          rw [if_pos hgt]

/-- Concrete timesheet for the date-window witness: entries on two days
within a 14-day pay period. -/
def exTsC4 : EmployeeTimesheet :=
  { employee_name := "Eve",
    daily_entries :=
      [{ entry_date := 739101, region_name := "North", hours := 8,
         hour_type := HourType.REGULAR },
       { entry_date := 739103, region_name := "North", hours := 8,
         hour_type := HourType.REGULAR }],
    pay_period_end_date := 739110, xero_employee_id := some "EMP1" }

/-- Tracking mapping used by the builder witnesses. -/
def exTrackingC4 : List (String × Option String) := [("North", some "T1")]

/-- Earnings mapping used by the builder witnesses. -/
def exEarningsC4 : List (String × String) := [("REGULAR", "E1")]

/-- C4 witness: the date-window theorem applied to the concrete two-day
timesheet, giving StartDate = earliest entry date and EndDate = pay-period
end date. -/
theorem c4_date_window_witness :
    ∃ out, build_timesheet exTsC4 exTrackingC4 exEarningsC4 = .ok out
      ∧ out.startDate = 739101 ∧ out.endDate = 739110 := by
  refine ⟨_, rfl, ?_⟩
  exact (c4_date_window exTsC4 exTrackingC4 exEarningsC4 _ 739101 739103
    rfl rfl rfl).1 (by norm_num)

/-- C5 (amended): any missing region or hour-type mapping makes validation
fail; the raised error enumerates the complete list of missing keys of the
first failing category: all missing regions when any region is unmapped,
otherwise all missing hour types; and the error propagates out of
build_timesheet. -/
theorem c5_missing_mappings (ts : EmployeeTimesheet)
    (tracking : List (String × Option String)) (earnings : List (String × String)) :
    ((missingRegions ts tracking ≠ [] ∨ missingHourTypes ts earnings ≠ []) →
      ∃ err, validateMappings ts tracking earnings = .error err)
    ∧ (∀ err, validateMappings ts tracking earnings = .error err →
        (missingRegions ts tracking ≠ [] →
          err = .missingTrackingMappings (missingRegions ts tracking))
        ∧ (missingRegions ts tracking = [] →
          err = .missingEarningsMappings (missingHourTypes ts earnings)))
    ∧ (∀ r ∈ get_regions ts, (∀ p ∈ tracking, p.1 ≠ r) →
        r ∈ missingRegions ts tracking)
    ∧ (∀ h ∈ hourTypeValues ts, (∀ p ∈ earnings, p.1 ≠ h) →
        h ∈ missingHourTypes ts earnings)
    ∧ (∀ err, validateEmployeeTimesheet ts = .ok () →
        validateMappings ts tracking earnings = .error err →
        build_timesheet ts tracking earnings = .error err) := by
  refine ⟨?_, ?_, ?_, ?_, ?_⟩
  · intro h
    unfold validateMappings
    by_cases h1 : missingRegions ts tracking ≠ []
    · rw [if_pos h1]
      exact ⟨_, rfl⟩
    · rw [if_neg h1]
      have h2 : missingHourTypes ts earnings ≠ [] := by
        rcases h with h | h
        · exact absurd h h1
        · exact h
      rw [if_pos h2]
      exact ⟨_, rfl⟩
  · intro err herr
    unfold validateMappings at herr
    constructor
    · intro h1
      rw [if_pos h1] at herr
      injection herr with h
      exact h.symm
    · intro h1
      rw [if_neg (fun hc => hc h1)] at herr
      split at herr
      · injection herr with h
        exact h.symm
      · exact absurd herr (by simp)
  · intro r hr hnone
    unfold missingRegions
    rw [List.mem_filter]
    refine ⟨hr, ?_⟩
    simp only [Bool.not_eq_true', List.any_eq_false, beq_iff_eq]
    exact fun p hp => hnone p hp
  · intro h hh hnone
    unfold missingHourTypes
    rw [List.mem_filter]
    refine ⟨hh, ?_⟩
    simp only [Bool.not_eq_true', List.any_eq_false, beq_iff_eq]
    exact fun p hp => hnone p hp
  · intro err hval herr
    simp only [build_timesheet, hval, herr]

/-- Concrete timesheet used by the C5 example: one entry in region North
with hour type REGULAR. -/
def exTsC5 : EmployeeTimesheet :=
  { employee_name := "Frank",
    daily_entries :=
      [{ entry_date := 739101, region_name := "North", hours := 8,
         hour_type := HourType.REGULAR }],
    pay_period_end_date := 739110, xero_employee_id := some "EMP2" }

/-- C5 counterexample: with both the region mapping and the hour-type
mapping empty, the build fails with an error enumerating only the missing
region keys; the missing hour-type key REGULAR is a missing mapping key yet
is not among the keys the error enumerates, so the error does not enumerate
all missing mapping keys at once. -/
theorem c5_single_category_enumerated :
    build_timesheet exTsC5 [] [] = .error (.missingTrackingMappings ["North"])
    ∧ "REGULAR" ∈ missingHourTypes exTsC5 []
    ∧ "REGULAR" ∉ (BuilderError.missingTrackingMappings ["North"]).enumeratedKeys := by
  refine ⟨by decide, by decide, by decide⟩

/-- C5 witness: the amended theorem applied to the concrete timesheet with
empty mappings, producing the error that enumerates the full missing-region
list. -/
theorem c5_missing_mappings_witness :
    ∃ err, validateMappings exTsC5 [] [] = .error err
      ∧ err = .missingTrackingMappings (missingRegions exTsC5 []) := by
  obtain ⟨err, herr⟩ := (c5_missing_mappings exTsC5 [] []).1 (Or.inl (by decide))
  exact ⟨err, herr, ((c5_missing_mappings exTsC5 [] []).2.1 err herr).1 (by decide)⟩

/-- One Xero roster entry as handed to the EmployeeMatcher. -/
structure XeroEmployee where
  employee_id : String
  name : String
deriving DecidableEq, Repr

/-- The four rapidfuzz similarity measures used by _find_fuzzy_matches.
They are an external library, so the embedding takes them as an oracle;
pRatio stands for fuzz.partial_ratio. -/
structure FuzzOracle where
  ratio : String → String → ℚ
  pRatio : String → String → ℚ
  tokenSortRatio : String → String → ℚ
  tokenSetRatio : String → String → ℚ

/-- One match dict produced by _find_fuzzy_matches. -/
structure FuzzyMatch where
  name : String
  employee_id : String
  score : ℚ
  last_name_score : ℚ
deriving DecidableEq, Repr

/-- config.settings.FUZZY_MATCH_THRESHOLD (auto-match threshold). -/
def FUZZY_MATCH_THRESHOLD : ℚ := 92.5

/-- config.settings.FUZZY_MATCH_CUTOFF (default suggestion threshold). -/
def FUZZY_MATCH_CUTOFF : ℚ := 60

/-- The hardcoded last-name similarity bound of _find_fuzzy_matches
(last_name_score >= 60). -/
def LAST_NAME_SIMILARITY_FLOOR : ℚ := 60

/-- The last whitespace-separated token of a normalized name when it has at
least two tokens, else the empty string. -/
def inputLastOf (nameNorm : String) : String :=
  let parts := pySplit nameNorm
  if parts.length ≥ 2 then (parts.getLast?).getD "" else ""

/-- The primary signal: maximum of the four similarity scores. -/
def fuzzyBestScore (fz : FuzzOracle) (nameNorm empNorm : String) : ℚ :=
  max (max (fz.ratio nameNorm empNorm) (fz.pRatio nameNorm empNorm))
      (max (fz.tokenSortRatio nameNorm empNorm) (fz.tokenSetRatio nameNorm empNorm))

/-- The dedicated last-token similarity: fuzz.ratio of the two last tokens
when both names have one, else 0. -/
def lastNameScoreOf (fz : FuzzOracle) (nameNorm empNorm : String) : ℚ :=
  if inputLastOf nameNorm ≠ "" ∧ inputLastOf empNorm ≠ "" then
    fz.ratio (inputLastOf nameNorm) (inputLastOf empNorm)
  else 0

/-- The acceptance heuristic of _find_fuzzy_matches: the primary score must
clear the suggestion threshold, and either a token-based score clears the
same threshold or the last-token score reaches the fixed floor of 60. -/
def candidatePasses (fz : FuzzOracle) (thr : ℚ) (nameNorm empNorm : String) : Bool :=
  decide (fuzzyBestScore fz nameNorm empNorm ≥ thr)
  && (decide (fz.tokenSetRatio nameNorm empNorm ≥ thr)
    || decide (fz.tokenSortRatio nameNorm empNorm ≥ thr)
    || decide (lastNameScoreOf fz nameNorm empNorm ≥ LAST_NAME_SIMILARITY_FLOOR))

/-- Descending comparison by score (sort key=score, reverse=True). -/
def scoreDescLe (a b : FuzzyMatch) : Bool := decide (b.score ≤ a.score)

/-- EmployeeMatcher._find_fuzzy_matches: score every roster entry with a
non-empty name and id, keep those passing the acceptance heuristic, sorted
by score descending. -/
def findFuzzyMatches (fz : FuzzOracle) (thr : ℚ)
    (employees : List XeroEmployee) (name : String) : List FuzzyMatch :=
  pySort scoreDescLe (employees.filterMap (fun emp =>
    if emp.name = "" ∨ emp.employee_id = "" then none
    else if candidatePasses fz thr (pyStrip (pyLower name)) (pyStrip (pyLower emp.name)) then
      some { name := emp.name, employee_id := emp.employee_id,
             score := fuzzyBestScore fz (pyStrip (pyLower name)) (pyStrip (pyLower emp.name)),
             last_name_score :=
               lastNameScoreOf fz (pyStrip (pyLower name)) (pyStrip (pyLower emp.name)) }
    else none))

/-- Replace the value stored at a dict key, or append the new binding. -/
def lookupInsert (l : List (String × XeroEmployee)) (k : String) (v : XeroEmployee) :
    List (String × XeroEmployee) :=
  if l.any (fun p => p.1 == k) then
    l.map (fun p => if p.1 == k then (p.1, v) else p)
  else l ++ [(k, v)]

/-- EmployeeMatcher._build_lookup_tables restricted to _employee_lookup:
skip entries with a falsy id or stripped name, key the rest by stripped
name. -/
def buildLookup : List XeroEmployee → List (String × XeroEmployee) →
    List (String × XeroEmployee)
  | [], acc => acc
  | emp :: rest, acc =>
    if emp.employee_id = "" ∨ pyStrip emp.name = "" then buildLookup rest acc
    else buildLookup rest (lookupInsert acc (pyStrip emp.name) emp)

/-- The _employee_lookup dict as built from the roster. -/
def employeeLookup (employees : List XeroEmployee) : List (String × XeroEmployee) :=
  buildLookup employees []

/-- EmployeeMatcher._find_exact_match: direct key lookup, then a
case-insensitive scan over the lookup keys. -/
def findExactMatch (lookup : List (String × XeroEmployee)) (name : String) :
    Option XeroEmployee :=
  match lookup.find? (fun p => p.1 == name) with
  | some p => some p.2
  | none =>
    match lookup.find? (fun p => pyLower p.1 == pyLower name) with
    | some p => some p.2
    | none => none

/-- validation.MatchConfidence. -/
inductive MatchConfidence where
  | HIGH
  | MEDIUM
  | LOW
  | NO_MATCH
deriving DecidableEq, Repr

/-- validation.MatchResult, with suggestions as (name, employee_id, score). -/
structure MatchResultM where
  input_name : String
  matched_name : Option String
  matched_id : Option String
  confidence : MatchConfidence
  confidence_score : ℚ
  suggestions : List (String × String × ℚ)
  requires_confirmation : Bool
deriving DecidableEq, Repr

/-- The MatchResult returned for empty input or no fuzzy matches. -/
def noMatchResult (input_name : String) : MatchResultM :=
  { input_name := input_name, matched_name := none, matched_id := none,
    confidence := .NO_MATCH, confidence_score := 0, suggestions := [],
    requires_confirmation := true }

/-- EmployeeMatcher.match_employee as a pure function of the roster, the
thresholds and the similarity oracle; the per-session result cache is a
memoization of this function and is not modelled. -/
def match_employee (fz : FuzzOracle) (employees : List XeroEmployee)
    (autoThr suggThr : ℚ) (name : String) (require_confirmation : Bool) :
    MatchResultM :=
  if name = "" ∨ pyStrip name = "" then noMatchResult name
  else
    match findExactMatch (employeeLookup employees) (pyStrip name) with
    | some emp =>
      { input_name := pyStrip name, matched_name := some emp.name,
        matched_id := some emp.employee_id, confidence := .HIGH,
        confidence_score := 100, suggestions := [],
        requires_confirmation := false }
    | none =>
      match findFuzzyMatches fz suggThr employees (pyStrip name) with
      | [] => noMatchResult (pyStrip name)
      | best :: restMatches =>
        let conf : MatchConfidence × Bool :=
          if best.score ≥ autoThr then (.HIGH, require_confirmation)
          else if best.score ≥ 70 then (.MEDIUM, true)
          else if best.score ≥ 50 then (.LOW, true)
          else (.NO_MATCH, true)
        { input_name := pyStrip name,
          matched_name := if conf.1 ≠ .NO_MATCH then some best.name else none,
          matched_id := if conf.1 ≠ .NO_MATCH then some best.employee_id else none,
          confidence := conf.1, confidence_score := best.score,
          suggestions :=
            (((best :: restMatches).take 5).filter
              (fun mch => decide (mch.score ≥ suggThr))).map
              (fun mch => (mch.name, mch.employee_id, mch.score)),
          requires_confirmation := conf.2 }

theorem candidatePasses_iff (fz : FuzzOracle) (thr : ℚ) (nn en : String) :
    candidatePasses fz thr nn en = true ↔
      (fuzzyBestScore fz nn en ≥ thr
        ∧ (fz.tokenSetRatio nn en ≥ thr ∨ fz.tokenSortRatio nn en ≥ thr
            ∨ lastNameScoreOf fz nn en ≥ LAST_NAME_SIMILARITY_FLOOR)) := by
  simp only [candidatePasses, Bool.and_eq_true, Bool.or_eq_true, decide_eq_true_eq]
  rw [or_assoc]

/-- C6 (amended): a roster entry is accepted as a fuzzy candidate exactly
when its primary (maximum) score reaches the suggestion threshold and
either a token-based score reaches the same threshold or the dedicated
last-token score reaches the fixed floor 60; that fixed floor equals the
default suggestion threshold FUZZY_MATCH_CUTOFF rather than being stricter
than it. -/
theorem c6_fuzzy_candidate_policy (fz : FuzzOracle) (thr : ℚ)
    (employees : List XeroEmployee) (name : String) :
    (∀ m : FuzzyMatch, m ∈ findFuzzyMatches fz thr employees name ↔
      ∃ emp ∈ employees, ¬ (emp.name = "" ∨ emp.employee_id = "")
        ∧ (fuzzyBestScore fz (pyStrip (pyLower name)) (pyStrip (pyLower emp.name)) ≥ thr
          ∧ (fz.tokenSetRatio (pyStrip (pyLower name)) (pyStrip (pyLower emp.name)) ≥ thr
            ∨ fz.tokenSortRatio (pyStrip (pyLower name)) (pyStrip (pyLower emp.name)) ≥ thr
            ∨ lastNameScoreOf fz (pyStrip (pyLower name)) (pyStrip (pyLower emp.name))
                ≥ LAST_NAME_SIMILARITY_FLOOR))
        ∧ m = { name := emp.name, employee_id := emp.employee_id,
                score := fuzzyBestScore fz (pyStrip (pyLower name))
                  (pyStrip (pyLower emp.name)),
                last_name_score := lastNameScoreOf fz (pyStrip (pyLower name))
                  (pyStrip (pyLower emp.name)) })
    ∧ LAST_NAME_SIMILARITY_FLOOR = FUZZY_MATCH_CUTOFF := by
  constructor
  · intro m
    unfold findFuzzyMatches
    rw [(pySort_perm scoreDescLe _).mem_iff, List.mem_filterMap]
    constructor
    · rintro ⟨emp, hemp, hsome⟩
      split at hsome
      · exact absurd hsome (by simp)
      · split at hsome
        · rename_i hvalid hpass
          exact ⟨emp, hemp, hvalid, (candidatePasses_iff fz thr _ _).mp hpass,
            (Option.some.inj hsome).symm⟩
        · exact absurd hsome (by simp)
    · rintro ⟨emp, hemp, hvalid, hcond, rfl⟩
      refine ⟨emp, hemp, ?_⟩
      rw [if_neg hvalid, if_pos ((candidatePasses_iff fz thr _ _).mpr hcond)]
  · rfl

/-- Similarity oracle of the C6 counterexample: the full-name ratio is 58,
the partial ratio 70, both token ratios 50, and the last-token ratio
(applied to walsh versus walto) 60. -/
def exC6Oracle : FuzzOracle :=
  { ratio := fun a _ => if a = "walsh" then 60 else 58,
    pRatio := fun _ _ => 70,
    tokenSortRatio := fun _ _ => 50,
    tokenSetRatio := fun _ _ => 50 }

/-- Roster entry of the C6 counterexample. -/
def exC6Emp : XeroEmployee := { employee_id := "1", name := "ann walto" }

/-- C6 counterexample: with the default suggestion threshold (60), a
candidate is accepted whose token-based scores are below the threshold and
whose last-token score is exactly 60, hence does not clear any threshold
stricter than the suggestion threshold; the claimed strictly-stricter
secondary threshold does not exist in the code (the floor is the constant
60). -/
theorem c6_secondary_floor_not_stricter :
    (∃ m ∈ findFuzzyMatches exC6Oracle FUZZY_MATCH_CUTOFF [exC6Emp] "ann walsh",
      m.name = "ann walto")
    ∧ ¬ (exC6Oracle.tokenSetRatio "ann walsh" "ann walto" ≥ FUZZY_MATCH_CUTOFF
        ∨ exC6Oracle.tokenSortRatio "ann walsh" "ann walto" ≥ FUZZY_MATCH_CUTOFF
        ∨ lastNameScoreOf exC6Oracle "ann walsh" "ann walto" > FUZZY_MATCH_CUTOFF) := by
  constructor
  · decide
  · decide

/-- C6 witness: the policy theorem applied to the concrete oracle and
roster, certifying the accepted candidate. -/
theorem c6_fuzzy_candidate_policy_witness :
    (⟨"ann walto", "1", 70, 60⟩ : FuzzyMatch) ∈
      findFuzzyMatches exC6Oracle FUZZY_MATCH_CUTOFF [exC6Emp] "ann walsh" :=
  ((c6_fuzzy_candidate_policy exC6Oracle FUZZY_MATCH_CUTOFF [exC6Emp] "ann walsh").1
    ⟨"ann walto", "1", 70, 60⟩).mpr (by decide)

theorem lookupInsert_key_self (acc : List (String × XeroEmployee)) (k : String)
    (v : XeroEmployee) : ∃ p ∈ lookupInsert acc k v, p.1 = k := by
  unfold lookupInsert
  split
  · rename_i hany
    obtain ⟨p, hp, hpk⟩ := List.any_eq_true.mp hany
    refine ⟨(p.1, v), ?_, by simpa using hpk⟩
    have := List.mem_map_of_mem
      (fun p : String × XeroEmployee => if p.1 == k then (p.1, v) else p) hp
    simpa [hpk] using this
  · exact ⟨(k, v), List.mem_append_right _ (by simp), rfl⟩

theorem lookupInsert_key_preserved (acc : List (String × XeroEmployee))
    (k : String) (v : XeroEmployee) (k2 : String)
    (h : ∃ p ∈ acc, p.1 = k2) : ∃ p ∈ lookupInsert acc k v, p.1 = k2 := by
  obtain ⟨p, hp, hpk⟩ := h
  unfold lookupInsert
  split
  · refine ⟨if p.1 == k then (p.1, v) else p, List.mem_map_of_mem _ hp, ?_⟩
    split
    · exact hpk
    · exact hpk
  · exact ⟨p, List.mem_append_left _ hp, hpk⟩

theorem buildLookup_key_preserved :
    ∀ (es : List XeroEmployee) (acc : List (String × XeroEmployee)) (k : String),
      (∃ p ∈ acc, p.1 = k) → ∃ p ∈ buildLookup es acc, p.1 = k := by
  intro es
  induction es with
  | nil => intro acc k h; exact h
  | cons emp rest ih =>
    intro acc k h
    unfold buildLookup
    split
    · exact ih acc k h
    · exact ih _ k (lookupInsert_key_preserved acc _ _ k h)

theorem buildLookup_adds :
    ∀ (es : List XeroEmployee) (acc : List (String × XeroEmployee)),
      ∀ emp ∈ es, emp.employee_id ≠ "" → pyStrip emp.name ≠ "" →
        ∃ p ∈ buildLookup es acc, p.1 = pyStrip emp.name := by
  intro es
  induction es with
  | nil => intro acc emp h; simp at h
  | cons e0 rest ih =>
    intro acc emp hmem hid hname
    rcases List.mem_cons.mp hmem with rfl | hmem2
    · unfold buildLookup
      rw [if_neg (by push_neg; exact ⟨hid, hname⟩)]
      exact buildLookup_key_preserved rest _ _ (lookupInsert_key_self acc _ emp)
    · unfold buildLookup
      split
      · exact ih acc emp hmem2 hid hname
      · exact ih _ emp hmem2 hid hname

/-- C8: for every non-empty input name matching some roster entry exactly
under case-insensitive comparison (after stripping, as the lookup tables
and matcher both strip), match_employee returns confidence HIGH with score
100 and no confirmation requirement, regardless of the
require_confirmation argument and the thresholds. -/
theorem c8_exact_match_high (fz : FuzzOracle) (employees : List XeroEmployee)
    (autoThr suggThr : ℚ) (name : String) (rc : Bool)
    (hname : pyStrip name ≠ "")
    (hex : ∃ emp ∈ employees, emp.employee_id ≠ "" ∧ pyStrip emp.name ≠ ""
      ∧ pyLower (pyStrip emp.name) = pyLower (pyStrip name)) :
    (match_employee fz employees autoThr suggThr name rc).confidence = .HIGH
    ∧ (match_employee fz employees autoThr suggThr name rc).confidence_score = 100
    ∧ (match_employee fz employees autoThr suggThr name rc).requires_confirmation
        = false := by
  have hcond : ¬ (name = "" ∨ pyStrip name = "") := by
    rintro (rfl | h)
    · exact hname rfl
    · exact hname h
  have hsome : ∃ emp2, findExactMatch (employeeLookup employees) (pyStrip name)
      = some emp2 := by
    obtain ⟨emp, hmem, hid, hnm, hlow⟩ := hex
    obtain ⟨p, hp, hpk⟩ := buildLookup_adds employees [] emp hmem hid hnm
    unfold findExactMatch
    match h1 : (employeeLookup employees).find? (fun p => p.1 == pyStrip name) with
    | some q =>
      rw [h1]
      exact ⟨q.2, rfl⟩
    | none =>
      match h2 : (employeeLookup employees).find?
          (fun p => pyLower p.1 == pyLower (pyStrip name)) with
      | some q =>
        rw [h1, h2]
        exact ⟨q.2, rfl⟩
      | none =>
        exfalso
        apply List.find?_eq_none.mp h2 p hp
        simp only [beq_iff_eq]
        rw [hpk, hlow]
  obtain ⟨emp2, hfe⟩ := hsome
  unfold match_employee
  rw [if_neg hcond, hfe]
  exact ⟨rfl, rfl, rfl⟩

/-- Oracle returning zero scores everywhere, for the exact-match witness
(the exact path never consults the oracle). -/
def zeroOracle : FuzzOracle :=
  { ratio := fun _ _ => 0, pRatio := fun _ _ => 0,
    tokenSortRatio := fun _ _ => 0, tokenSetRatio := fun _ _ => 0 }

/-- C8 witness: the exact-match theorem applied to a concrete roster and the
same name in different case, with require_confirmation set to true. -/
theorem c8_exact_match_high_witness :
    (match_employee zeroOracle [⟨"id9", "Grace Hopper"⟩] FUZZY_MATCH_THRESHOLD
      FUZZY_MATCH_CUTOFF "grace hopper" true).confidence = .HIGH
    ∧ (match_employee zeroOracle [⟨"id9", "Grace Hopper"⟩] FUZZY_MATCH_THRESHOLD
        FUZZY_MATCH_CUTOFF "grace hopper" true).confidence_score = 100
    ∧ (match_employee zeroOracle [⟨"id9", "Grace Hopper"⟩] FUZZY_MATCH_THRESHOLD
        FUZZY_MATCH_CUTOFF "grace hopper" true).requires_confirmation = false :=
  c8_exact_match_high zeroOracle [⟨"id9", "Grace Hopper"⟩] FUZZY_MATCH_THRESHOLD
    FUZZY_MATCH_CUTOFF "grace hopper" true (by decide)
    ⟨⟨"id9", "Grace Hopper"⟩, by decide, by decide, by decide, by decide⟩

end XeroAuto
